import Mathlib

/-!
Shallow embedding of the pydb language front end (src/language/tokenizer.rs and
src/language/parser.rs): the lexer with its indentation tracking, the
clean_tokens normalization pass, and the recursive-descent parser.

Modelling conventions:
* Source text is a `List Char`; Rust's `Peekable<Chars>` iterator becomes
  explicit list consumption (each scanning step produces its token from a
  `takeWhile`-style prefix and continues on the corresponding suffix).
* Rust panics (`unwrap`, `panic!`) are modelled as `none`: every fallible
  function returns an `Option`.
* `i64` values are modelled as `Int` with the `i64::MAX` bound checked
  explicitly where the Rust code can overflow (`"...".parse::<i64>()`).
* `f64` literal values are abstracted to their source text (the claims under
  study never inspect a float's numeric value, only whether the parse of the
  literal text succeeds, which for a digits-and-dots string holds exactly when
  it contains a single dot).
* Rust's Unicode character classes (`is_numeric`, `is_alphabetic`,
  `is_alphanumeric`) are modelled on their ASCII fragment (`Char.isDigit`,
  `Char.isAlpha`, `Char.isAlphanum`); the `'0'..='9'` range pattern is exactly
  `Char.isDigit`.
* The parser's recursion is fueled: every mutually recursive parse function
  consumes one unit of fuel per call, and `none` signals either a Rust panic
  or fuel exhaustion.  Theorems about concrete programs are stated for all
  fuels of the form `k + D` with `D` a concrete bound large enough for the
  run, or for all fuels outright.
-/

set_option maxHeartbeats 1000000 in
/-- The `Token` enum of tokenizer.rs (named `Tok` to avoid clashing with
Mathlib; constructor names follow the source).  `Integer` carries an `Int`
(the i64 value), `Float` carries the literal's source text. -/
inductive Tok where
  | WhiteSpace
  | DefKeyword | ReturnKeyword | IfKeyword | ElifKeyword | ElseKeyword
  | ForKeyword | WhileKeyword | BreakKeyword | ContinueKeyword | PassKeyword
  | ImportKeyword | FromKeyword | AsKeyword | TryKeyword | ExceptKeyword
  | FinallyKeyword | RaiseKeyword | ClassKeyword | WithKeyword | YieldKeyword
  | GlobalKeyword | NonlocalKeyword | LambdaKeyword | AsyncKeyword | AwaitKeyword
  | Plus | Minus | Star | Slash | DoubleSlash | Percent | DoubleStar
  | Equals | DoubleEquals | NotEquals
  | LessThan | GreaterThan | LessThanOrEqual | GreaterThanOrEqual
  | And | Or | Not | In | NotIn | Is | IsNot
  | LParen | RParen | LBrace | RBrace | LBracket | RBracket
  | Comma | Colon | Dot | Semicolon | At | Arrow | Ellipsis
  | Identifier (name : String)
  | Integer (v : Int)
  | Float (raw : String)
  | StringLiteral (s : String)
  | BooleanLiteral (b : Bool)
  | NoneLiteral
  | Comment (text : String)
  | Newline | Indent | Dedent
  | EOF
deriving Repr


/-- Injective encoding of `Tok` (constructor tag plus the three possible
payload slots), used to define decidable equality; the stock `DecidableEq`
derivation exhausts the elaborator stack on an enum of this size. -/
def Tok.enc : Tok → Nat × String × Int × Bool
  | Tok.WhiteSpace => (0, "", 0, false)
  | Tok.DefKeyword => (1, "", 0, false)
  | Tok.ReturnKeyword => (2, "", 0, false)
  | Tok.IfKeyword => (3, "", 0, false)
  | Tok.ElifKeyword => (4, "", 0, false)
  | Tok.ElseKeyword => (5, "", 0, false)
  | Tok.ForKeyword => (6, "", 0, false)
  | Tok.WhileKeyword => (7, "", 0, false)
  | Tok.BreakKeyword => (8, "", 0, false)
  | Tok.ContinueKeyword => (9, "", 0, false)
  | Tok.PassKeyword => (10, "", 0, false)
  | Tok.ImportKeyword => (11, "", 0, false)
  | Tok.FromKeyword => (12, "", 0, false)
  | Tok.AsKeyword => (13, "", 0, false)
  | Tok.TryKeyword => (14, "", 0, false)
  | Tok.ExceptKeyword => (15, "", 0, false)
  | Tok.FinallyKeyword => (16, "", 0, false)
  | Tok.RaiseKeyword => (17, "", 0, false)
  | Tok.ClassKeyword => (18, "", 0, false)
  | Tok.WithKeyword => (19, "", 0, false)
  | Tok.YieldKeyword => (20, "", 0, false)
  | Tok.GlobalKeyword => (21, "", 0, false)
  | Tok.NonlocalKeyword => (22, "", 0, false)
  | Tok.LambdaKeyword => (23, "", 0, false)
  | Tok.AsyncKeyword => (24, "", 0, false)
  | Tok.AwaitKeyword => (25, "", 0, false)
  | Tok.Plus => (26, "", 0, false)
  | Tok.Minus => (27, "", 0, false)
  | Tok.Star => (28, "", 0, false)
  | Tok.Slash => (29, "", 0, false)
  | Tok.DoubleSlash => (30, "", 0, false)
  | Tok.Percent => (31, "", 0, false)
  | Tok.DoubleStar => (32, "", 0, false)
  | Tok.Equals => (33, "", 0, false)
  | Tok.DoubleEquals => (34, "", 0, false)
  | Tok.NotEquals => (35, "", 0, false)
  | Tok.LessThan => (36, "", 0, false)
  | Tok.GreaterThan => (37, "", 0, false)
  | Tok.LessThanOrEqual => (38, "", 0, false)
  | Tok.GreaterThanOrEqual => (39, "", 0, false)
  | Tok.And => (40, "", 0, false)
  | Tok.Or => (41, "", 0, false)
  | Tok.Not => (42, "", 0, false)
  | Tok.In => (43, "", 0, false)
  | Tok.NotIn => (44, "", 0, false)
  | Tok.Is => (45, "", 0, false)
  | Tok.IsNot => (46, "", 0, false)
  | Tok.LParen => (47, "", 0, false)
  | Tok.RParen => (48, "", 0, false)
  | Tok.LBrace => (49, "", 0, false)
  | Tok.RBrace => (50, "", 0, false)
  | Tok.LBracket => (51, "", 0, false)
  | Tok.RBracket => (52, "", 0, false)
  | Tok.Comma => (53, "", 0, false)
  | Tok.Colon => (54, "", 0, false)
  | Tok.Dot => (55, "", 0, false)
  | Tok.Semicolon => (56, "", 0, false)
  | Tok.At => (57, "", 0, false)
  | Tok.Arrow => (58, "", 0, false)
  | Tok.Ellipsis => (59, "", 0, false)
  | Tok.Identifier s => (60, s, 0, false)
  | Tok.Integer v => (61, "", v, false)
  | Tok.Float s => (62, s, 0, false)
  | Tok.StringLiteral s => (63, s, 0, false)
  | Tok.BooleanLiteral b => (64, "", 0, b)
  | Tok.NoneLiteral => (65, "", 0, false)
  | Tok.Comment s => (66, s, 0, false)
  | Tok.Newline => (67, "", 0, false)
  | Tok.Indent => (68, "", 0, false)
  | Tok.Dedent => (69, "", 0, false)
  | Tok.EOF => (70, "", 0, false)

/-- Left inverse of `Tok.enc`. -/
def Tok.dec : Nat × String × Int × Bool → Tok
  | (0, _, _, _) => Tok.WhiteSpace
  | (1, _, _, _) => Tok.DefKeyword
  | (2, _, _, _) => Tok.ReturnKeyword
  | (3, _, _, _) => Tok.IfKeyword
  | (4, _, _, _) => Tok.ElifKeyword
  | (5, _, _, _) => Tok.ElseKeyword
  | (6, _, _, _) => Tok.ForKeyword
  | (7, _, _, _) => Tok.WhileKeyword
  | (8, _, _, _) => Tok.BreakKeyword
  | (9, _, _, _) => Tok.ContinueKeyword
  | (10, _, _, _) => Tok.PassKeyword
  | (11, _, _, _) => Tok.ImportKeyword
  | (12, _, _, _) => Tok.FromKeyword
  | (13, _, _, _) => Tok.AsKeyword
  | (14, _, _, _) => Tok.TryKeyword
  | (15, _, _, _) => Tok.ExceptKeyword
  | (16, _, _, _) => Tok.FinallyKeyword
  | (17, _, _, _) => Tok.RaiseKeyword
  | (18, _, _, _) => Tok.ClassKeyword
  | (19, _, _, _) => Tok.WithKeyword
  | (20, _, _, _) => Tok.YieldKeyword
  | (21, _, _, _) => Tok.GlobalKeyword
  | (22, _, _, _) => Tok.NonlocalKeyword
  | (23, _, _, _) => Tok.LambdaKeyword
  | (24, _, _, _) => Tok.AsyncKeyword
  | (25, _, _, _) => Tok.AwaitKeyword
  | (26, _, _, _) => Tok.Plus
  | (27, _, _, _) => Tok.Minus
  | (28, _, _, _) => Tok.Star
  | (29, _, _, _) => Tok.Slash
  | (30, _, _, _) => Tok.DoubleSlash
  | (31, _, _, _) => Tok.Percent
  | (32, _, _, _) => Tok.DoubleStar
  | (33, _, _, _) => Tok.Equals
  | (34, _, _, _) => Tok.DoubleEquals
  | (35, _, _, _) => Tok.NotEquals
  | (36, _, _, _) => Tok.LessThan
  | (37, _, _, _) => Tok.GreaterThan
  | (38, _, _, _) => Tok.LessThanOrEqual
  | (39, _, _, _) => Tok.GreaterThanOrEqual
  | (40, _, _, _) => Tok.And
  | (41, _, _, _) => Tok.Or
  | (42, _, _, _) => Tok.Not
  | (43, _, _, _) => Tok.In
  | (44, _, _, _) => Tok.NotIn
  | (45, _, _, _) => Tok.Is
  | (46, _, _, _) => Tok.IsNot
  | (47, _, _, _) => Tok.LParen
  | (48, _, _, _) => Tok.RParen
  | (49, _, _, _) => Tok.LBrace
  | (50, _, _, _) => Tok.RBrace
  | (51, _, _, _) => Tok.LBracket
  | (52, _, _, _) => Tok.RBracket
  | (53, _, _, _) => Tok.Comma
  | (54, _, _, _) => Tok.Colon
  | (55, _, _, _) => Tok.Dot
  | (56, _, _, _) => Tok.Semicolon
  | (57, _, _, _) => Tok.At
  | (58, _, _, _) => Tok.Arrow
  | (59, _, _, _) => Tok.Ellipsis
  | (60, s, _, _) => Tok.Identifier s
  | (61, _, v, _) => Tok.Integer v
  | (62, s, _, _) => Tok.Float s
  | (63, s, _, _) => Tok.StringLiteral s
  | (64, _, _, b) => Tok.BooleanLiteral b
  | (65, _, _, _) => Tok.NoneLiteral
  | (66, s, _, _) => Tok.Comment s
  | (67, _, _, _) => Tok.Newline
  | (68, _, _, _) => Tok.Indent
  | (69, _, _, _) => Tok.Dedent
  | (_, _, _, _) => Tok.EOF

theorem Tok.dec_enc : ∀ t : Tok, Tok.dec (Tok.enc t) = t := by
  intro t
  cases t <;> rfl

instance : DecidableEq Tok := fun a b =>
  decidable_of_iff (Tok.enc a = Tok.enc b)
    ⟨fun h => by rw [← Tok.dec_enc a, ← Tok.dec_enc b, h], fun h => by rw [h]⟩

/-- Mid-line whitespace characters (the `' ' | '\t'` match arm). -/
def isWsChar (c : Char) : Bool := c == ' ' || c == '\t'

/-- Line-terminator characters (the `'\n' | '\r'` match arm). -/
def isNlChar (c : Char) : Bool := c == '\n' || c == '\r'

/-- `consume_whitespace`: drop spaces and tabs from the front of the stream. -/
def consume_whitespace (cs : List Char) : List Char := cs.dropWhile isWsChar

/-- The indentation width measured by `handle_indentation`'s counting loop:
spaces weigh 1, tabs weigh 4, stopping at the first other character. -/
def indentWidth : List Char → Nat
  | [] => 0
  | c :: cs =>
    if c == ' ' then 1 + indentWidth cs
    else if c == '\t' then 4 + indentWidth cs
    else 0

/-- The `while indent_stack.last().unwrap() > &indent_level { pop; push Dedent }`
loop of `handle_indentation`.  The stack is a `List Nat` whose HEAD is the top
of the Rust `Vec` (its last element).  Checking `last()` on an empty stack is
an `unwrap` panic, hence `none`. -/
def popLevels : List Nat → Nat → Option (List Tok × List Nat)
  | [], _ => none
  | top :: rest, lvl =>
    if top > lvl then
      match popLevels rest lvl with
      | none => none
      | some (ts, st) => some (Tok.Dedent :: ts, st)
    else some ([], top :: rest)

/-- `handle_indentation`: measure the leading indentation of the stream and
compare it with the top of the indentation stack, emitting `Indent`/`Dedent`
tokens.  The caller consumes the measured whitespace (`dropWhile isWsChar`),
mirroring the Rust function's consumption from the shared iterator. -/
def handle_indentation (cs : List Char) (indent_stack : List Nat) :
    Option (List Tok × List Nat) :=
  let indent_level := indentWidth cs
  match indent_stack with
  | [] => none
  | current_level :: rest =>
    if indent_level > current_level then
      some ([Tok.Indent], indent_level :: current_level :: rest)
    else if indent_level < current_level then
      popLevels (current_level :: rest) indent_level
    else
      some ([], current_level :: rest)

/-- The scanning loop inside `consume_string_literal`: consume characters up
to and including the closing quote (or to end of input), returning the literal
body and the remaining stream. -/
def scanString (quote : Char) : List Char → (List Char × List Char)
  | [] => ([], [])
  | c :: cs =>
    if c == quote then ([], cs)
    else
      let (lit, rest) := scanString quote cs
      (c :: lit, rest)

/-- Characters accepted inside a number by `consume_number`:
`ch.is_numeric() || ch == '.'` (ASCII fragment). -/
def isNumChar (c : Char) : Bool := c.isDigit || c == '.'

/-- Decimal value of a digit string. -/
def digitsVal (cs : List Char) : Nat :=
  cs.foldl (fun acc c => acc * 10 + (c.toNat - 48)) 0

/-- The `number.parse().unwrap()` step of `consume_number`, applied to the
maximal digits-and-dots run.  The float parse succeeds exactly when the run
has a single dot; the integer parse succeeds exactly when the value fits in an
`i64`.  A failed parse is an `unwrap` panic, hence `none`. -/
def numberTok (number : List Char) : Option Tok :=
  if number.contains '.' then
    if number.count '.' == 1 then some (Tok.Float (String.mk number))
    else none
  else
    if digitsVal number ≤ 2 ^ 63 - 1 then
      some (Tok.Integer (Int.ofNat (digitsVal number)))
    else none

/-- Characters accepted inside an identifier:
`ch.is_alphanumeric() || ch == '_'` (ASCII fragment). -/
def isIdentChar (c : Char) : Bool := c.isAlphanum || c == '_'

/-- The keyword table at the end of `consume_identifier_or_keyword`
(note: the source has no arm for `nonlocal`, and the unreachable
`"is not"` arm is reproduced as written). -/
def keywordTok (s : String) : Tok :=
  match s with
  | "def" => Tok.DefKeyword
  | "return" => Tok.ReturnKeyword
  | "if" => Tok.IfKeyword
  | "else" => Tok.ElseKeyword
  | "None" => Tok.NoneLiteral
  | "True" => Tok.BooleanLiteral true
  | "False" => Tok.BooleanLiteral false
  | "elif" => Tok.ElifKeyword
  | "for" => Tok.ForKeyword
  | "while" => Tok.WhileKeyword
  | "break" => Tok.BreakKeyword
  | "continue" => Tok.ContinueKeyword
  | "pass" => Tok.PassKeyword
  | "import" => Tok.ImportKeyword
  | "from" => Tok.FromKeyword
  | "as" => Tok.AsKeyword
  | "try" => Tok.TryKeyword
  | "except" => Tok.ExceptKeyword
  | "finally" => Tok.FinallyKeyword
  | "raise" => Tok.RaiseKeyword
  | "class" => Tok.ClassKeyword
  | "with" => Tok.WithKeyword
  | "yield" => Tok.YieldKeyword
  | "global" => Tok.GlobalKeyword
  | "lambda" => Tok.LambdaKeyword
  | "async" => Tok.AsyncKeyword
  | "await" => Tok.AwaitKeyword
  | "and" => Tok.And
  | "or" => Tok.Or
  | "not" => Tok.Not
  | "in" => Tok.In
  | "is" => Tok.Is
  | "is not" => Tok.IsNot
  | _ => Tok.Identifier s

/-- Prepend a token to a successful token stream. -/
def emit (t : Tok) : Option (List Tok) → Option (List Tok)
  | none => none
  | some ts => some (t :: ts)

/-- One mid-line iteration of the Rust `while let Some(&ch) = chars.peek()`
loop of `tokenize` (the `match ch` dispatch, for a stream `c :: cs` with
`at_line_start` already false): returns the emitted token (if the arm emits
one), the remaining stream, and the new `at_line_start` flag.  `none` is the
`unwrap` panic inside `consume_number`; each arm that consumes a
`takeWhile`-prefix continues on the matching `dropWhile`-suffix (for an arm
entered on its guard character `c`, `dropWhile p (c :: cs) = dropWhile p cs`).
-/
def scanStep (c : Char) (cs : List Char) :
    Option (Option Tok × List Char × Bool) :=
  if isWsChar c then
    some (none, cs.dropWhile isWsChar, false)
  else if isNlChar c then
    some (some Tok.Newline, cs, true)
  else if c == '(' then some (some Tok.LParen, cs, false)
  else if c == ')' then some (some Tok.RParen, cs, false)
  else if c == '{' then some (some Tok.LBrace, cs, false)
  else if c == '}' then some (some Tok.RBrace, cs, false)
  else if c == '[' then some (some Tok.LBracket, cs, false)
  else if c == ']' then some (some Tok.RBracket, cs, false)
  else if c == '+' then some (some Tok.Plus, cs, false)
  else if c == '-' then
    match cs with
    | '>' :: cs2 => some (some Tok.Arrow, cs2, false)
    | rest => some (some Tok.Minus, rest, false)
  else if c == '*' then
    match cs with
    | '*' :: cs2 => some (some Tok.DoubleStar, cs2, false)
    | rest => some (some Tok.Star, rest, false)
  else if c == '/' then
    match cs with
    | '/' :: cs2 => some (some Tok.DoubleSlash, cs2, false)
    | rest => some (some Tok.Slash, rest, false)
  else if c == '=' then
    match cs with
    | '=' :: cs2 => some (some Tok.DoubleEquals, cs2, false)
    | rest => some (some Tok.Equals, rest, false)
  else if c == '!' then
    match cs with
    | '=' :: cs2 => some (some Tok.NotEquals, cs2, false)
    | rest => some (none, rest, false)
  else if c == '<' then
    match cs with
    | '=' :: cs2 => some (some Tok.LessThanOrEqual, cs2, false)
    | rest => some (some Tok.LessThan, rest, false)
  else if c == '>' then
    match cs with
    | '=' :: cs2 => some (some Tok.GreaterThanOrEqual, cs2, false)
    | rest => some (some Tok.GreaterThan, rest, false)
  else if c == '\'' || c == '"' then
    some (some (Tok.StringLiteral (String.mk (scanString c cs).1)),
      (scanString c cs).2, false)
  else if c == '#' then
    some (some (Tok.Comment (String.mk (cs.takeWhile (fun x => x != '\n')))),
      cs.dropWhile (fun x => x != '\n'), false)
  else if c == ';' then some (some Tok.Semicolon, cs, false)
  else if c == ':' then some (some Tok.Colon, cs, false)
  else if c == ',' then some (some Tok.Comma, cs, false)
  else if c == '%' then some (some Tok.Percent, cs, false)
  else if c.isDigit then
    match numberTok ((c :: cs).takeWhile isNumChar) with
    | none => none
    | some t => some (some t, cs.dropWhile isNumChar, false)
  else if c.isAlpha || c == '_' then
    some (some (keywordTok (String.mk ((c :: cs).takeWhile isIdentChar))),
      cs.dropWhile isIdentChar, false)
  else
    some (none, cs, false)

/-- The main scanning loop of `tokenize`, structurally recursive on a fuel
argument (`tokenize` supplies `2 * length + 2`, which exceeds the loop's
decreasing measure `2 * length + at_line_start`, so the fuel never runs out;
concrete and inductive theorems below never rely on the exhaustion branch).
The Boolean is `at_line_start`; the `List Nat` is the indentation stack
(head = top).  One iteration of the Rust loop:

* if `at_line_start`, run `handle_indentation` (which consumes the leading
  whitespace) and clear the flag; the subsequent `match ch` on the previously
  peeked character either consumes nothing further (`ch` was a space or tab,
  and the stream left by `handle_indentation` starts with a non-whitespace
  character, so `consume_whitespace` is a no-op) or operates on the unchanged
  stream (`ch` was not indentation whitespace, so `handle_indentation`
  consumed nothing), so the iteration is exactly: indentation tokens, then
  continue on the remaining stream with the flag cleared;
* otherwise perform one `scanStep` dispatch on the first character and
  continue.

The trailing `EOF` is appended when the stream is exhausted. -/
def tokLoop : Nat → List Char → Bool → List Nat → Option (List Tok)
  | 0, _, _, _ => none
  | _ + 1, [], _, _ => some [Tok.EOF]
  | fuel + 1, c :: cs, true, stack =>
    match handle_indentation (c :: cs) stack with
    | none => none
    | some (itoks, stack2) =>
      match tokLoop fuel ((c :: cs).dropWhile isWsChar) false stack2 with
      | none => none
      | some ts => some (itoks ++ ts)
  | fuel + 1, c :: cs, false, stack =>
    match scanStep c cs with
    | none => none
    | some (some t, rest, flag) => emit t (tokLoop fuel rest flag stack)
    | some (none, rest, flag) => tokLoop fuel rest flag stack

/-- `tokenize`: run the scanning loop from the start of a line with the
indentation stack seeded `[0]`, with fuel ample for the whole scan. -/
def tokenize (input : List Char) : Option (List Tok) :=
  tokLoop (2 * input.length + 2) input true [0]

/-- The loop body of `clean_tokens` (tokenizer.rs lines 90-115): a fold over
the raw token stream carrying the previous token (`prev_token`) and the
tracked `indent_level`.  The first three arms `continue` without updating
`prev_token`; the `(Some(Indent), _)` and `(Some(Dedent), _)` arms adjust the
level and, notably, do not push the current token. -/
def cleanLoop : Option Tok → Nat → List Tok → List Tok
  | _, _, [] => []
  | prev, indent_level, token :: rest =>
    if prev == some Tok.Newline && token == Tok.Newline then
      cleanLoop prev indent_level rest
    else if prev == some Tok.Newline && token == Tok.Dedent && indent_level == 0 then
      cleanLoop prev indent_level rest
    else if prev == some Tok.Dedent && token == Tok.Dedent && indent_level == 0 then
      cleanLoop prev indent_level rest
    else if prev == some Tok.Indent then
      cleanLoop (some token) (indent_level + 1) rest
    else if prev == some Tok.Dedent && indent_level > 0 then
      cleanLoop (some token) (indent_level - 1) rest
    else
      token :: cleanLoop (some token) indent_level rest

/-- `clean_tokens`: run the normalization fold with no previous token and
indent level 0. -/
def clean_tokens (tokens : List Tok) : List Tok :=
  cleanLoop none 0 tokens


/-! ## The parser (src/language/parser.rs) -/

/-- `struct Identifier { name: String }`. -/
structure Identifier where
  name : String
deriving DecidableEq, Repr

/-- The `Operator` enum of parser.rs. -/
inductive Operator where
  | Add | Subtract | Multiply | Divide | Modulus | Exponent
  | GreaterThan | LessThan | GreaterThanOrEqual | LessThanOrEqual
  | Equality | NotEquals | And | Or
deriving DecidableEq, Repr

/-- The `Literal` enum of parser.rs (named `Lit` to avoid shadowing; `Float`
carries the literal's source text, see the module comment). -/
inductive Lit where
  | Int (v : Int)
  | Float (raw : String)
  | String (s : String)
deriving DecidableEq, Repr

mutual
/-- The `Statement` enum of parser.rs (`Box<Statement>` becomes a plain
child). -/
inductive Statement where
  | IfStatement (test : Statement) (body : List Statement)
  | FunctionDefinitionStatement (id : Identifier) (params : List Identifier)
      (body : List Statement)
  | ExpressionStatement (e : Expression)
deriving Repr

/-- The `Expression` enum of parser.rs.  As in the source, binary operands,
call arguments and assignment right-hand sides are `Statement`s. -/
inductive Expression where
  | Literal (l : Lit)
  | Identifier (id : Identifier)
  | UnaryExpression (operand : Expression) (op : Operator)
  | BinaryExpression (left : Statement) (op : Operator) (right : Statement)
  | FunctionCallExpression (callee : Identifier) (args : List Statement)
  | AssignmentExpression (target : Identifier) (value : Statement)
deriving Repr
end

/-- `struct Program { body: Vec<Statement> }`. -/
structure Program where
  body : List Statement
deriving Repr

/-- `struct Parser { tokens: Vec<Token>, current_token: usize }`. -/
structure Parser where
  tokens : List Tok
  current_token : Nat
deriving Repr

/-- `not_eof`: true unless the current token exists and is `EOF`. -/
def Parser.not_eof (p : Parser) : Bool :=
  match p.tokens.get? p.current_token with
  | some Tok.EOF => false
  | _ => true

/-- `get_current_token`: `self.tokens.get(self.current_token).unwrap()`;
`none` is the unwrap panic. -/
def Parser.get_current_token (p : Parser) : Option Tok :=
  p.tokens.get? p.current_token

/-- `advance`: return the current token and move the cursor; `none` is the
unwrap panic. -/
def Parser.advance (p : Parser) : Option (Tok × Parser) :=
  match p.tokens.get? p.current_token with
  | some t => some (t, { p with current_token := p.current_token + 1 })
  | none => none

/-- `expect`: consume the current token and fail (`panic!`) unless it equals
the expected one; `none` also covers the out-of-bounds unwrap. -/
def Parser.expect (p : Parser) (expected : Tok) : Option Parser :=
  match p.tokens.get? p.current_token with
  | some t =>
    if t = expected then some { p with current_token := p.current_token + 1 }
    else none
  | none => none

mutual

/-- The `while self.not_eof()` loop of `parse`: parse block statements until
the current token is `EOF`. -/
def parse_loop : Nat → Parser → Option (List Statement × Parser)
  | 0, _ => none
  | fuel + 1, p =>
    if p.not_eof then do
      let (s, p) ← parse_block_statement fuel p
      let (rest, p) ← parse_loop fuel p
      some (s :: rest, p)
    else some ([], p)

/-- `parse_block_statement`: dispatch on the current token — `if` and `def`
go to their productions, anything else falls through to `parse_statement`. -/
def parse_block_statement : Nat → Parser → Option (Statement × Parser)
  | 0, _ => none
  | fuel + 1, p => do
    let current ← p.get_current_token
    if current = Tok.IfKeyword then parse_if_statement fuel p
    else if current = Tok.DefKeyword then parse_function_definition_statement fuel p
    else parse_statement fuel p

/-- `parse_statement`: delegates to `parse_expression`. -/
def parse_statement : Nat → Parser → Option (Statement × Parser)
  | 0, _ => none
  | fuel + 1, p => parse_expression fuel p

/-- `parse_if_statement`: consume `if`, consume the following token
unconditionally (the source's `//consume lparen`), parse the test, require
`)` and `:`, then the block body. -/
def parse_if_statement : Nat → Parser → Option (Statement × Parser)
  | 0, _ => none
  | fuel + 1, p => do
    let (_, p) ← p.advance
    let (_, p) ← p.advance
    let (test, p) ← parse_expression fuel p
    let p ← p.expect Tok.RParen
    let p ← p.expect Tok.Colon
    let (body, p) ← parse_block_statement_body fuel p
    some (Statement.IfStatement test body, p)

/-- `parse_block_statement_body`: consume the presumed `Newline` and `Indent`
unconditionally, then run the statement loop. -/
def parse_block_statement_body : Nat → Parser → Option (List Statement × Parser)
  | 0, _ => none
  | fuel + 1, p => do
    let (_, p) ← p.advance
    let (_, p) ← p.advance
    parse_body_loop fuel p

/-- The `while` loop of `parse_block_statement_body`: stop at `EOF`; on
`Newline` peek the next token — if it is `Dedent`, consume the newline and all
consecutive `Dedent`s and stop, else consume the newline and continue; on any
other token parse one block statement and append it. -/
def parse_body_loop : Nat → Parser → Option (List Statement × Parser)
  | 0, _ => none
  | fuel + 1, p => do
    let current ← p.get_current_token
    match current with
    | Tok.EOF => some ([], p)
    | Tok.Newline => do
      let nxt ← p.tokens.get? (p.current_token + 1)
      if nxt = Tok.Dedent then do
        let (_, p) ← p.advance
        let p ← skip_dedents fuel p
        some ([], p)
      else do
        let (_, p) ← p.advance
        parse_body_loop fuel p
    | _ => do
      let (s, p) ← parse_block_statement fuel p
      let (rest, p) ← parse_body_loop fuel p
      some (s :: rest, p)

/-- The inner `while *self.get_current_token() == Token::Dedent` loop. -/
def skip_dedents : Nat → Parser → Option Parser
  | 0, _ => none
  | fuel + 1, p => do
    let current ← p.get_current_token
    if current = Tok.Dedent then do
      let (_, p) ← p.advance
      skip_dedents fuel p
    else some p

/-- `parse_function_definition_statement`: consume `def`, require an
identifier as the function name, consume it and the presumed `(`; then the
source inspects `self.tokens.get(self.current_token + 1)` — the token AFTER
the current one — and takes the empty-parameter-list branch when it is `)`;
otherwise it runs the parameter loop. -/
def parse_function_definition_statement : Nat → Parser → Option (Statement × Parser)
  | 0, _ => none
  | fuel + 1, p => do
    let (_, p) ← p.advance
    let nameTok ← p.get_current_token
    let function_name ← (match nameTok with
      | Tok.Identifier e => some (Identifier.mk e)
      | _ => none)
    let (_, p) ← p.advance
    let (_, p) ← p.advance
    let nxt ← p.tokens.get? (p.current_token + 1)
    if nxt = Tok.RParen then do
      let (_, p) ← p.advance
      let (_, p) ← p.advance
      let (function_body, p) ← parse_block_statement_body fuel p
      some (Statement.FunctionDefinitionStatement function_name [] function_body, p)
    else do
      let (function_params, p) ← parse_params_loop fuel p
      let (_, p) ← p.advance
      let (function_body, p) ← parse_block_statement_body fuel p
      some (Statement.FunctionDefinitionStatement function_name function_params
        function_body, p)

/-- The parameter loop of `parse_function_definition_statement`: advance,
collect identifiers, skip commas, stop on `)`, fail on anything else. -/
def parse_params_loop : Nat → Parser → Option (List Identifier × Parser)
  | 0, _ => none
  | fuel + 1, p => do
    let (t, p) ← p.advance
    match t with
    | Tok.Identifier e => do
      let (rest, p) ← parse_params_loop fuel p
      some (Identifier.mk e :: rest, p)
    | Tok.Comma => parse_params_loop fuel p
    | Tok.RParen => some ([], p)
    | _ => none

/-- `parse_function_arguments`: an immediate `)` yields an empty argument
list; otherwise run the argument loop. -/
def parse_function_arguments : Nat → Parser → Option (List Statement × Parser)
  | 0, _ => none
  | fuel + 1, p => do
    let current ← p.get_current_token
    if current = Tok.RParen then do
      let (_, p) ← p.advance
      some ([], p)
    else parse_args_loop fuel p

/-- The `loop` of `parse_function_arguments`: parse one expression argument,
consume a `,` if present, stop after consuming `)`. -/
def parse_args_loop : Nat → Parser → Option (List Statement × Parser)
  | 0, _ => none
  | fuel + 1, p => do
    let (argument, p) ← parse_expression fuel p
    let cur ← p.get_current_token
    let p ← (if cur = Tok.Comma then (p.advance).map Prod.snd else some p)
    let cur2 ← p.get_current_token
    if cur2 = Tok.RParen then do
      let (_, p) ← p.advance
      some ([argument], p)
    else do
      let (rest, p) ← parse_args_loop fuel p
      some (argument :: rest, p)

/-- `parse_expression`: delegates to `parse_logical_expression`. -/
def parse_expression : Nat → Parser → Option (Statement × Parser)
  | 0, _ => none
  | fuel + 1, p => parse_logical_expression fuel p

/-- `parse_logical_expression`: comparison operands joined by
`and`/`or`/`==`/`!=`, left-associatively. -/
def parse_logical_expression : Nat → Parser → Option (Statement × Parser)
  | 0, _ => none
  | fuel + 1, p => do
    let (left, p) ← parse_comparision_expression fuel p
    parse_logical_loop fuel left p

/-- The operator loop of `parse_logical_expression`. -/
def parse_logical_loop : Nat → Statement → Parser → Option (Statement × Parser)
  | 0, _, _ => none
  | fuel + 1, left, p => do
    let cur ← p.get_current_token
    if cur = Tok.And ∨ cur = Tok.Or ∨ cur = Tok.DoubleEquals ∨ cur = Tok.NotEquals then do
      let (opTok, p) ← p.advance
      let op ← (match opTok with
        | Tok.And => some Operator.And
        | Tok.Or => some Operator.Or
        | Tok.DoubleEquals => some Operator.Equality
        | Tok.NotEquals => some Operator.NotEquals
        | _ => none)
      let (right, p) ← parse_comparision_expression fuel p
      parse_logical_loop fuel
        (Statement.ExpressionStatement (Expression.BinaryExpression left op right)) p
    else some (left, p)

/-- `parse_comparision_expression` (source spelling): additive operands joined
by `>`/`<`/`>=`/`<=`, left-associatively. -/
def parse_comparision_expression : Nat → Parser → Option (Statement × Parser)
  | 0, _ => none
  | fuel + 1, p => do
    let (left, p) ← parse_additive_expression fuel p
    parse_comparision_loop fuel left p

/-- The operator loop of `parse_comparision_expression`. -/
def parse_comparision_loop : Nat → Statement → Parser → Option (Statement × Parser)
  | 0, _, _ => none
  | fuel + 1, left, p => do
    let cur ← p.get_current_token
    if cur = Tok.GreaterThan ∨ cur = Tok.LessThan ∨ cur = Tok.GreaterThanOrEqual
        ∨ cur = Tok.LessThanOrEqual then do
      let (opTok, p) ← p.advance
      let op ← (match opTok with
        | Tok.GreaterThan => some Operator.GreaterThan
        | Tok.LessThan => some Operator.LessThan
        | Tok.GreaterThanOrEqual => some Operator.GreaterThanOrEqual
        | Tok.LessThanOrEqual => some Operator.LessThanOrEqual
        | _ => none)
      let (right, p) ← parse_additive_expression fuel p
      parse_comparision_loop fuel
        (Statement.ExpressionStatement (Expression.BinaryExpression left op right)) p
    else some (left, p)

/-- `parse_additive_expression`: multiplicative operands joined by `+`/`-`,
left-associatively. -/
def parse_additive_expression : Nat → Parser → Option (Statement × Parser)
  | 0, _ => none
  | fuel + 1, p => do
    let (left, p) ← parse_multiplicative_expression fuel p
    parse_additive_loop fuel left p

/-- The operator loop of `parse_additive_expression`. -/
def parse_additive_loop : Nat → Statement → Parser → Option (Statement × Parser)
  | 0, _, _ => none
  | fuel + 1, left, p => do
    let cur ← p.get_current_token
    if cur = Tok.Plus ∨ cur = Tok.Minus then do
      let (opTok, p) ← p.advance
      let op ← (match opTok with
        | Tok.Plus => some Operator.Add
        | Tok.Minus => some Operator.Subtract
        | _ => none)
      let (right, p) ← parse_multiplicative_expression fuel p
      parse_additive_loop fuel
        (Statement.ExpressionStatement (Expression.BinaryExpression left op right)) p
    else some (left, p)

/-- `parse_multiplicative_expression`: primary operands joined by
`*`/`/`/`**`, left-associatively.  The guard admits only `Star`, `Slash` and
`DoubleStar`; the `Percent => Modulus` arm of the source's operator `match` is
reproduced although the guard never lets a `Percent` reach it. -/
def parse_multiplicative_expression : Nat → Parser → Option (Statement × Parser)
  | 0, _ => none
  | fuel + 1, p => do
    let (left, p) ← parse_primary fuel p
    parse_multiplicative_loop fuel left p

/-- The operator loop of `parse_multiplicative_expression`. -/
def parse_multiplicative_loop : Nat → Statement → Parser → Option (Statement × Parser)
  | 0, _, _ => none
  | fuel + 1, left, p => do
    let cur ← p.get_current_token
    if cur = Tok.Star ∨ cur = Tok.Slash ∨ cur = Tok.DoubleStar then do
      let (opTok, p) ← p.advance
      let op ← (match opTok with
        | Tok.Star => some Operator.Multiply
        | Tok.Slash => some Operator.Divide
        | Tok.Percent => some Operator.Modulus
        | Tok.DoubleStar => some Operator.Exponent
        | _ => none)
      let (right, p) ← parse_primary fuel p
      parse_multiplicative_loop fuel
        (Statement.ExpressionStatement (Expression.BinaryExpression left op right)) p
    else some (left, p)

/-- `parse_primary`: advance, then dispatch on the consumed token.  An
identifier checks the FOLLOWING token for `(` (function call) or `=`
(assignment); `(` parses a parenthesized expression requiring `)`; `Indent`
and `Newline` recurse into `parse_block_statement`; any other token is the
`Undefined Symbol` panic. -/
def parse_primary : Nat → Parser → Option (Statement × Parser)
  | 0, _ => none
  | fuel + 1, p => do
    let (current, p) ← p.advance
    match current with
    | Tok.Identifier v => do
      let nxt ← p.get_current_token
      if nxt = Tok.LParen then do
        let (_, p) ← p.advance
        let (args, p) ← parse_function_arguments fuel p
        some (Statement.ExpressionStatement
          (Expression.FunctionCallExpression (Identifier.mk v) args), p)
      else if nxt = Tok.Equals then do
        let (_, p) ← p.advance
        let (value, p) ← parse_expression fuel p
        some (Statement.ExpressionStatement
          (Expression.AssignmentExpression (Identifier.mk v) value), p)
      else
        some (Statement.ExpressionStatement
          (Expression.Identifier (Identifier.mk v)), p)
    | Tok.Integer v =>
      some (Statement.ExpressionStatement (Expression.Literal (Lit.Int v)), p)
    | Tok.Float raw =>
      some (Statement.ExpressionStatement (Expression.Literal (Lit.Float raw)), p)
    | Tok.StringLiteral v =>
      some (Statement.ExpressionStatement (Expression.Literal (Lit.String v)), p)
    | Tok.LParen => do
      let (value, p) ← parse_expression fuel p
      let p ← p.expect Tok.RParen
      some (value, p)
    | Tok.Indent => parse_block_statement fuel p
    | Tok.Newline => parse_block_statement fuel p
    | _ => none

end

/-- `Parser::parse`: run the statement loop from the given state and wrap the
collected statements in a `Program`. -/
def Parser.parse (fuel : Nat) (p : Parser) : Option Program :=
  (parse_loop fuel p).map fun r => Program.mk r.1

/-- The pipeline of main.rs: `tokenize` the source text, hand the token
vector to a fresh `Parser` (cursor 0) and `parse` it.  (main.rs does not
interpose `clean_tokens`.) -/
def parse_source (s : String) (fuel : Nat) : Option Program :=
  match tokenize s.toList with
  | none => none
  | some ts => Parser.parse fuel (Parser.mk ts 0)

/-! ## Auxiliary predicates and specification-side definitions -/

/-- No token of the list is `Indent` or `Dedent`. -/
def noIndentDedent (ts : List Tok) : Bool :=
  ts.all fun t => !(t == Tok.Indent) && !(t == Tok.Dedent)

/-- No character of the text is a decimal digit. -/
def noDigits (cs : List Char) : Bool :=
  cs.all fun c => !c.isDigit

/-- Every line of the text has indentation width zero: tracking whether we
stand at a line start (argument Boolean), no line may begin with a space or a
tab. -/
def noLeadWs : Bool → List Char → Bool
  | _, [] => true
  | atStart, c :: cs =>
    if atStart && isWsChar c then false
    else noLeadWs (isNlChar c) cs

/-- Modelled from the spec (for the refinement half of the `clean_tokens`
claim): collapse each maximal run of consecutive `Newline` tokens into a
single `Newline` and keep every other token, in order.  The Boolean records
whether the previously kept token was a `Newline`. -/
def collapseNewlinesAux : Bool → List Tok → List Tok
  | _, [] => []
  | prevNl, t :: ts =>
    if t == Tok.Newline then
      if prevNl then collapseNewlinesAux true ts
      else t :: collapseNewlinesAux true ts
    else t :: collapseNewlinesAux false ts

/-- Modelled from the spec: newline-run collapsing over a whole list. -/
def collapseNewlines (ts : List Tok) : List Tok :=
  collapseNewlinesAux false ts

mutual

/-- No `Modulus` operator occurs anywhere in the statement. -/
def stmt_no_modulus : Statement → Bool
  | Statement.IfStatement test body => stmt_no_modulus test && stmts_no_modulus body
  | Statement.FunctionDefinitionStatement _ _ body => stmts_no_modulus body
  | Statement.ExpressionStatement e => expr_no_modulus e

/-- No `Modulus` operator occurs anywhere in the statement list. -/
def stmts_no_modulus : List Statement → Bool
  | [] => true
  | s :: ss => stmt_no_modulus s && stmts_no_modulus ss

/-- No `Modulus` operator occurs anywhere in the expression. -/
def expr_no_modulus : Expression → Bool
  | Expression.Literal _ => true
  | Expression.Identifier _ => true
  | Expression.UnaryExpression operand op =>
    expr_no_modulus operand && !(op == Operator.Modulus)
  | Expression.BinaryExpression left op right =>
    stmt_no_modulus left && !(op == Operator.Modulus) && stmt_no_modulus right
  | Expression.FunctionCallExpression _ args => stmts_no_modulus args
  | Expression.AssignmentExpression _ value => stmt_no_modulus value

end

/-- No `Modulus` operator occurs anywhere in the program. -/
def prog_no_modulus (p : Program) : Bool :=
  stmts_no_modulus p.body

mutual

/-- The identifier name occurs somewhere in the statement (as a variable,
callee, assignment target, function name or parameter). -/
def stmt_mentions (n : String) : Statement → Bool
  | Statement.IfStatement test body => stmt_mentions n test || stmts_mentions n body
  | Statement.FunctionDefinitionStatement id params body =>
    id.name == n || params.any (fun i => i.name == n) || stmts_mentions n body
  | Statement.ExpressionStatement e => expr_mentions n e

/-- The identifier name occurs somewhere in the statement list. -/
def stmts_mentions (n : String) : List Statement → Bool
  | [] => false
  | s :: ss => stmt_mentions n s || stmts_mentions n ss

/-- The identifier name occurs somewhere in the expression. -/
def expr_mentions (n : String) : Expression → Bool
  | Expression.Literal _ => false
  | Expression.Identifier id => id.name == n
  | Expression.UnaryExpression operand _ => expr_mentions n operand
  | Expression.BinaryExpression left _ right =>
    stmt_mentions n left || stmt_mentions n right
  | Expression.FunctionCallExpression callee args =>
    callee.name == n || stmts_mentions n args
  | Expression.AssignmentExpression target value =>
    target.name == n || stmt_mentions n value

end

/-- The identifier name occurs somewhere in the program. -/
def prog_mentions (n : String) (p : Program) : Bool :=
  stmts_mentions n p.body

/-- Token form of a declared parameter list `p1, p2, ..., pn`: identifier
tokens separated by single commas (empty for `n = 0`). -/
def paramToks : List String → List Tok
  | [] => []
  | [p] => [Tok.Identifier p]
  | p :: q :: rest => Tok.Identifier p :: Tok.Comma :: paramToks (q :: rest)

/-- Token form of a function definition `def name(p1, ..., pn): ...`: the
`def` keyword, the function name, `(`, the declared parameter list, `)`, `:`,
and then the remaining tokens of the file (the body's tokens). -/
def def_source_toks (f : String) (ps : List String) (rest : List Tok) : List Tok :=
  [Tok.DefKeyword, Tok.Identifier f, Tok.LParen] ++ paramToks ps ++
    ([Tok.RParen, Tok.Colon] ++ rest)

/-! ## Helper lemmas -/

theorem length_dropWhile_le (p : Char → Bool) (l : List Char) :
    (l.dropWhile p).length ≤ l.length :=
  (List.dropWhile_sublist p).length_le

theorem scanString_length_le (quote : Char) (cs : List Char) :
    (scanString quote cs).2.length ≤ cs.length := by
  induction cs with
  | nil => simp [scanString]
  | cons c cs ih =>
    by_cases h : c == quote
    · simp [scanString, h]
    · simp only [scanString, h]
      simp
      omega

theorem get_of_drop_cons {T : List Tok} {i : Nat} {x : Tok} {rest : List Tok}
    (h : T.drop i = x :: rest) : T.get? i = some x := by
  have h0 : (T.drop i)[0]? = T[i + 0]? := List.getElem?_drop T i 0
  rw [h] at h0
  rw [List.get?_eq_getElem?]
  simpa using h0.symm

theorem drop_cons_succ {T : List Tok} {i : Nat} {x : Tok} {rest : List Tok}
    (h : T.drop i = x :: rest) : T.drop (i + 1) = rest := by
  have h1 : (T.drop i).drop 1 = T.drop (i + 1) := List.drop_drop 1 i T
  rw [h] at h1
  simpa using h1.symm

theorem advance_at_get {T : List Tok} {i : Nat} {x : Tok}
    (h : T.get? i = some x) :
    Parser.advance (Parser.mk T i) = some (x, Parser.mk T (i + 1)) := by
  have h2 : T[i]? = some x := by rw [← List.get?_eq_getElem?]; exact h
  simp [Parser.advance, h2]

/-- When the cursor stands at the start of a well-formed declared parameter
token list followed by `)`, the parameter loop returns exactly the declared
identifiers, in order, and leaves the cursor one past the `)`. -/
theorem parse_params_loop_spec :
    ∀ (ps : List String) (fuel : Nat) (T : List Tok) (i : Nat) (rest : List Tok),
    T.drop i = paramToks ps ++ (Tok.RParen :: rest) →
    2 * ps.length + 1 ≤ fuel →
    parse_params_loop fuel (Parser.mk T i) =
      some (ps.map Identifier.mk, Parser.mk T (i + (paramToks ps).length + 1)) := by
  intro ps
  induction ps with
  | nil =>
    intro fuel T i rest hdrop hfuel
    obtain ⟨g, rfl⟩ : ∃ g, fuel = g + 1 := ⟨fuel - 1, by omega⟩
    have hx : T.get? i = some Tok.RParen :=
      get_of_drop_cons (by simpa [paramToks] using hdrop)
    simp [parse_params_loop, advance_at_get hx, paramToks]
  | cons p ps' ih =>
    intro fuel T i rest hdrop hfuel
    obtain ⟨g, rfl⟩ : ∃ g, fuel = g + 1 := ⟨fuel - 1, by omega⟩
    cases ps' with
    | nil =>
      have hdrop1 : T.drop i = Tok.Identifier p :: (Tok.RParen :: rest) := by
        simpa [paramToks] using hdrop
      have hx : T.get? i = some (Tok.Identifier p) := get_of_drop_cons hdrop1
      have hd1 : T.drop (i + 1) = Tok.RParen :: rest := drop_cons_succ hdrop1
      have hrec := ih g T (i + 1) rest (by simpa [paramToks] using hd1)
        (by simp only [List.length_nil, List.length_cons] at hfuel ⊢; omega)
      simp [parse_params_loop, advance_at_get hx, hrec, paramToks]
    | cons q rest2 =>
      have hdrop1 : T.drop i = Tok.Identifier p :: (Tok.Comma ::
          (paramToks (q :: rest2) ++ (Tok.RParen :: rest))) := by
        simpa [paramToks] using hdrop
      have hx : T.get? i = some (Tok.Identifier p) := get_of_drop_cons hdrop1
      have hd1 : T.drop (i + 1) = Tok.Comma ::
          (paramToks (q :: rest2) ++ (Tok.RParen :: rest)) := drop_cons_succ hdrop1
      have hx1 : T.get? (i + 1) = some Tok.Comma := get_of_drop_cons hd1
      have hd2 : T.drop (i + 1 + 1) = paramToks (q :: rest2) ++ (Tok.RParen :: rest) :=
        drop_cons_succ hd1
      obtain ⟨g2, rfl⟩ : ∃ g2, g = g2 + 1 :=
        ⟨g - 1, by simp only [List.length_cons] at hfuel; omega⟩
      have hrec := ih g2 T (i + 1 + 1) rest hd2
        (by simp only [List.length_cons] at hfuel ⊢; omega)
      simp [parse_params_loop, advance_at_get hx, advance_at_get hx1, hrec, paramToks]
      omega

/-! ## Theorems for the claims -/

set_option maxHeartbeats 1000000 in
/-- C4: parsing the tokenization of `"if (a > b):\n    x = 1\n    y = 2\n"`
(for any sufficiently large fuel) succeeds and yields a `Program` with exactly
one `IfStatement` whose body holds exactly the two assignment statements, in
order, and the parse ends cleanly at `EOF`. -/
theorem parse_if_block_two_statements :
    ∀ k, parse_source "if (a > b):\n    x = 1\n    y = 2\n" (k + 40) =
      some (Program.mk
        [Statement.IfStatement
          (Statement.ExpressionStatement (Expression.BinaryExpression
            (Statement.ExpressionStatement (Expression.Identifier (Identifier.mk "a")))
            Operator.GreaterThan
            (Statement.ExpressionStatement (Expression.Identifier (Identifier.mk "b")))))
          [Statement.ExpressionStatement (Expression.AssignmentExpression (Identifier.mk "x")
            (Statement.ExpressionStatement (Expression.Literal (Lit.Int 1)))),
           Statement.ExpressionStatement (Expression.AssignmentExpression (Identifier.mk "y")
            (Statement.ExpressionStatement (Expression.Literal (Lit.Int 2))))]]) := by
  intro k
  have ht : tokenize "if (a > b):\n    x = 1\n    y = 2\n".toList = some
      [Tok.IfKeyword, Tok.LParen, Tok.Identifier "a", Tok.GreaterThan, Tok.Identifier "b",
       Tok.RParen, Tok.Colon, Tok.Newline, Tok.Indent, Tok.Identifier "x", Tok.Equals,
       Tok.Integer 1, Tok.Newline, Tok.Identifier "y", Tok.Equals, Tok.Integer 2,
       Tok.Newline, Tok.EOF] := rfl
  have hp : Parser.parse (k + 40) (Parser.mk
      [Tok.IfKeyword, Tok.LParen, Tok.Identifier "a", Tok.GreaterThan, Tok.Identifier "b",
       Tok.RParen, Tok.Colon, Tok.Newline, Tok.Indent, Tok.Identifier "x", Tok.Equals,
       Tok.Integer 1, Tok.Newline, Tok.Identifier "y", Tok.Equals, Tok.Integer 2,
       Tok.Newline, Tok.EOF] 0) =
      some (Program.mk
        [Statement.IfStatement
          (Statement.ExpressionStatement (Expression.BinaryExpression
            (Statement.ExpressionStatement (Expression.Identifier (Identifier.mk "a")))
            Operator.GreaterThan
            (Statement.ExpressionStatement (Expression.Identifier (Identifier.mk "b")))))
          [Statement.ExpressionStatement (Expression.AssignmentExpression (Identifier.mk "x")
            (Statement.ExpressionStatement (Expression.Literal (Lit.Int 1)))),
           Statement.ExpressionStatement (Expression.AssignmentExpression (Identifier.mk "y")
            (Statement.ExpressionStatement (Expression.Literal (Lit.Int 2))))]]) := rfl
  unfold parse_source
  rw [ht]
  exact hp

set_option maxHeartbeats 1000000 in
/-- C5: parsing the tokenization of `"1 + 2 * 3"` yields the tree
`Add(1, Multiply(2, 3))` — the multiplicative level binds tighter — and never
`Multiply(Add(1, 2), 3)`. -/
theorem parse_precedence_add_mul :
    ∀ k, parse_source "1 + 2 * 3" (k + 40) =
      some (Program.mk
        [Statement.ExpressionStatement (Expression.BinaryExpression
          (Statement.ExpressionStatement (Expression.Literal (Lit.Int 1)))
          Operator.Add
          (Statement.ExpressionStatement (Expression.BinaryExpression
            (Statement.ExpressionStatement (Expression.Literal (Lit.Int 2)))
            Operator.Multiply
            (Statement.ExpressionStatement (Expression.Literal (Lit.Int 3))))))]) := by
  intro k
  have ht : tokenize "1 + 2 * 3".toList = some
      [Tok.Integer 1, Tok.Plus, Tok.Integer 2, Tok.Star, Tok.Integer 3, Tok.EOF] := rfl
  have hp : Parser.parse (k + 40) (Parser.mk
      [Tok.Integer 1, Tok.Plus, Tok.Integer 2, Tok.Star, Tok.Integer 3, Tok.EOF] 0) =
      some (Program.mk
        [Statement.ExpressionStatement (Expression.BinaryExpression
          (Statement.ExpressionStatement (Expression.Literal (Lit.Int 1)))
          Operator.Add
          (Statement.ExpressionStatement (Expression.BinaryExpression
            (Statement.ExpressionStatement (Expression.Literal (Lit.Int 2)))
            Operator.Multiply
            (Statement.ExpressionStatement (Expression.Literal (Lit.Int 3))))))]) := rfl
  unfold parse_source
  rw [ht]
  exact hp

set_option maxHeartbeats 1000000 in
/-- C6: parsing the tokenization of the malformed `"(1 + 2"` fails for every
fuel: the missing `)` hits the fatal `expect` and no `Program` is returned,
partial or otherwise. -/
theorem parse_missing_rparen_fails :
    ∀ fuel, parse_source "(1 + 2" fuel = none := by
  have ht : tokenize "(1 + 2".toList = some
      [Tok.LParen, Tok.Integer 1, Tok.Plus, Tok.Integer 2, Tok.EOF] := rfl
  have hp : ∀ fuel, Parser.parse fuel (Parser.mk
      [Tok.LParen, Tok.Integer 1, Tok.Plus, Tok.Integer 2, Tok.EOF] 0) = none := by
    intro fuel
    rcases Nat.lt_or_ge fuel 30 with h | h
    · interval_cases fuel <;> rfl
    · obtain ⟨k, rfl⟩ := Nat.exists_eq_add_of_le h
      have hk : Parser.parse (k + 30) (Parser.mk
          [Tok.LParen, Tok.Integer 1, Tok.Plus, Tok.Integer 2, Tok.EOF] 0) = none := rfl
      simpa [Nat.add_comm] using hk
  intro fuel
  unfold parse_source
  rw [ht]
  exact hp fuel

set_option maxHeartbeats 1000000 in
/-- C10: the if-statement production consumes the token after `if` without
checking it is `(`: on `"if a (b)):\n    x = 1\n"` the parse succeeds with no
missing-parenthesis error, the parsed test is just the identifier `b`, and the
discarded `a` leaves no trace in the AST. -/
theorem if_discards_token_after_keyword :
    (∀ k, parse_source "if a (b)):\n    x = 1\n" (k + 40) =
      some (Program.mk
        [Statement.IfStatement
          (Statement.ExpressionStatement (Expression.Identifier (Identifier.mk "b")))
          [Statement.ExpressionStatement (Expression.AssignmentExpression (Identifier.mk "x")
            (Statement.ExpressionStatement (Expression.Literal (Lit.Int 1))))]])) ∧
    prog_mentions "a" (Program.mk
        [Statement.IfStatement
          (Statement.ExpressionStatement (Expression.Identifier (Identifier.mk "b")))
          [Statement.ExpressionStatement (Expression.AssignmentExpression (Identifier.mk "x")
            (Statement.ExpressionStatement (Expression.Literal (Lit.Int 1))))]]) = false := by
  constructor
  · intro k
    have ht : tokenize "if a (b)):\n    x = 1\n".toList = some
        [Tok.IfKeyword, Tok.Identifier "a", Tok.LParen, Tok.Identifier "b", Tok.RParen,
         Tok.RParen, Tok.Colon, Tok.Newline, Tok.Indent, Tok.Identifier "x", Tok.Equals,
         Tok.Integer 1, Tok.Newline, Tok.EOF] := rfl
    have hp : Parser.parse (k + 40) (Parser.mk
        [Tok.IfKeyword, Tok.Identifier "a", Tok.LParen, Tok.Identifier "b", Tok.RParen,
         Tok.RParen, Tok.Colon, Tok.Newline, Tok.Indent, Tok.Identifier "x", Tok.Equals,
         Tok.Integer 1, Tok.Newline, Tok.EOF] 0) =
        some (Program.mk
          [Statement.IfStatement
            (Statement.ExpressionStatement (Expression.Identifier (Identifier.mk "b")))
            [Statement.ExpressionStatement (Expression.AssignmentExpression (Identifier.mk "x")
              (Statement.ExpressionStatement (Expression.Literal (Lit.Int 1))))]]) := rfl
    unfold parse_source
    rw [ht]
    exact hp
  · rfl

set_option maxHeartbeats 1000000 in
/-- C2 counterexample: the source's empty-parameter check inspects
`tokens[current_token + 1]` — one token past the current one — so the
single-parameter definition `def f(a): ...` takes the empty-list branch and
parses successfully with `params = []`: the declared parameter `a` is lost,
refuting `params = [p1, ..., pn]` for `n = 1`. -/
theorem def_single_param_lost :
    parse_source "def f(a):\n    x = 1\n" 40 =
      some (Program.mk [Statement.FunctionDefinitionStatement (Identifier.mk "f") []
        [Statement.ExpressionStatement (Expression.AssignmentExpression (Identifier.mk "x")
          (Statement.ExpressionStatement (Expression.Literal (Lit.Int 1))))]]) := by
  have ht : tokenize "def f(a):\n    x = 1\n".toList = some
      [Tok.DefKeyword, Tok.Identifier "f", Tok.LParen, Tok.Identifier "a", Tok.RParen,
       Tok.Colon, Tok.Newline, Tok.Indent, Tok.Identifier "x", Tok.Equals,
       Tok.Integer 1, Tok.Newline, Tok.EOF] := rfl
  have hp : Parser.parse 40 (Parser.mk
      [Tok.DefKeyword, Tok.Identifier "f", Tok.LParen, Tok.Identifier "a", Tok.RParen,
       Tok.Colon, Tok.Newline, Tok.Indent, Tok.Identifier "x", Tok.Equals,
       Tok.Integer 1, Tok.Newline, Tok.EOF] 0) =
      some (Program.mk [Statement.FunctionDefinitionStatement (Identifier.mk "f") []
        [Statement.ExpressionStatement (Expression.AssignmentExpression (Identifier.mk "x")
          (Statement.ExpressionStatement (Expression.Literal (Lit.Int 1))))]]) := rfl
  unfold parse_source
  rw [ht]
  exact hp

set_option maxHeartbeats 1000000 in
/-- C2 (amended): for EVERY function name `f`, EVERY declared parameter list
`p1, ..., pn` with `n = 0` or `n ≥ 2`, and every remaining token stream on
which the block-body parse succeeds, `parse_function_definition_statement`
applied to the token form of `def f(p1, ..., pn): ...` succeeds and returns
exactly the parameters `[p1, ..., pn]`, in declared order (for `n = 0` via
the parameter loop, whose first step meets `)`; for `n ≥ 2` because the
checked token one past the cursor is the first comma).  The declared-order
property does not extend to `n = 1`: the empty-parameter check inspects
`tokens[current_token + 1]`, so a single-parameter definition takes the
empty-list branch and its parameter is lost (see the counterexample). -/
theorem def_params_declared_order (fuel : Nat) (f : String) (ps : List String)
    (tl : List Tok) (body : List Statement) (p2 : Parser)
    (hn : ps = [] ∨ 2 ≤ ps.length)
    (hfuel : 2 * ps.length + 1 ≤ fuel)
    (hbody : parse_block_statement_body fuel
      (Parser.mk (def_source_toks f ps tl) ((paramToks ps).length + 5)) =
        some (body, p2)) :
    parse_function_definition_statement (fuel + 1)
      (Parser.mk (def_source_toks f ps tl) 0) =
      some (Statement.FunctionDefinitionStatement (Identifier.mk f)
        (ps.map Identifier.mk) body, p2) := by
  rcases ps with _ | ⟨p, _ | ⟨q, rest2⟩⟩
  · have hdrop3 : (def_source_toks f [] tl).drop 3 =
        paramToks [] ++ (Tok.RParen :: (Tok.Colon :: tl)) := rfl
    have hloop := parse_params_loop_spec [] fuel (def_source_toks f [] tl) 3
      (Tok.Colon :: tl) hdrop3 hfuel
    calc parse_function_definition_statement (fuel + 1)
          (Parser.mk (def_source_toks f [] tl) 0)
        = (do
            let (function_params, pp) ← parse_params_loop fuel
              (Parser.mk (def_source_toks f [] tl) 3)
            let (_, pp) ← pp.advance
            let (function_body, pp) ← parse_block_statement_body fuel pp
            some (Statement.FunctionDefinitionStatement (Identifier.mk f)
              function_params function_body, pp)) := rfl
      _ = (do
            let (_, pp) ← Parser.advance (Parser.mk (def_source_toks f [] tl)
              (3 + (paramToks ([] : List String)).length + 1))
            let (function_body, pp) ← parse_block_statement_body fuel pp
            some (Statement.FunctionDefinitionStatement (Identifier.mk f)
              (List.map Identifier.mk []) function_body, pp)) := by rw [hloop]; rfl
      _ = (do
            let (function_body, pp) ← parse_block_statement_body fuel
              (Parser.mk (def_source_toks f [] tl)
                ((paramToks ([] : List String)).length + 5))
            some (Statement.FunctionDefinitionStatement (Identifier.mk f)
              (List.map Identifier.mk []) function_body, pp)) := rfl
      _ = some (Statement.FunctionDefinitionStatement (Identifier.mk f)
            (List.map Identifier.mk []) body, p2) := by rw [hbody]; rfl
  · rcases hn with h | h <;> simp at h
  · have hdrop3 : (def_source_toks f (p :: q :: rest2) tl).drop 3 =
        paramToks (p :: q :: rest2) ++ (Tok.RParen :: (Tok.Colon :: tl)) := rfl
    have hloop := parse_params_loop_spec (p :: q :: rest2) fuel
      (def_source_toks f (p :: q :: rest2) tl) 3 (Tok.Colon :: tl) hdrop3 hfuel
    have hdL : (def_source_toks f (p :: q :: rest2) tl).drop
        (3 + (paramToks (p :: q :: rest2)).length) =
        Tok.RParen :: (Tok.Colon :: tl) := by
      have h1 : ((def_source_toks f (p :: q :: rest2) tl).drop 3).drop
          (paramToks (p :: q :: rest2)).length =
          (def_source_toks f (p :: q :: rest2) tl).drop
            (3 + (paramToks (p :: q :: rest2)).length) :=
        List.drop_drop _ 3 _
      rw [hdrop3, List.drop_left] at h1
      exact h1.symm
    have hcolon : (def_source_toks f (p :: q :: rest2) tl).get?
        (3 + (paramToks (p :: q :: rest2)).length + 1) = some Tok.Colon :=
      get_of_drop_cons (drop_cons_succ hdL)
    have hadv := advance_at_get hcolon
    calc parse_function_definition_statement (fuel + 1)
          (Parser.mk (def_source_toks f (p :: q :: rest2) tl) 0)
        = (do
            let (function_params, pp) ← parse_params_loop fuel
              (Parser.mk (def_source_toks f (p :: q :: rest2) tl) 3)
            let (_, pp) ← pp.advance
            let (function_body, pp) ← parse_block_statement_body fuel pp
            some (Statement.FunctionDefinitionStatement (Identifier.mk f)
              function_params function_body, pp)) := rfl
      _ = (do
            let (_, pp) ← Parser.advance
              (Parser.mk (def_source_toks f (p :: q :: rest2) tl)
                (3 + (paramToks (p :: q :: rest2)).length + 1))
            let (function_body, pp) ← parse_block_statement_body fuel pp
            some (Statement.FunctionDefinitionStatement (Identifier.mk f)
              (List.map Identifier.mk (p :: q :: rest2)) function_body, pp)) := by
          rw [hloop]; rfl
      _ = (do
            let (function_body, pp) ← parse_block_statement_body fuel
              (Parser.mk (def_source_toks f (p :: q :: rest2) tl)
                (3 + (paramToks (p :: q :: rest2)).length + 1 + 1))
            some (Statement.FunctionDefinitionStatement (Identifier.mk f)
              (List.map Identifier.mk (p :: q :: rest2)) function_body, pp)) := by
          rw [hadv]; rfl
      _ = (do
            let (function_body, pp) ← parse_block_statement_body fuel
              (Parser.mk (def_source_toks f (p :: q :: rest2) tl)
                ((paramToks (p :: q :: rest2)).length + 5))
            some (Statement.FunctionDefinitionStatement (Identifier.mk f)
              (List.map Identifier.mk (p :: q :: rest2)) function_body, pp)) := by
          have h35 : 3 + (paramToks (p :: q :: rest2)).length + 1 + 1 =
              (paramToks (p :: q :: rest2)).length + 5 := by omega
          rw [h35]
      _ = some (Statement.FunctionDefinitionStatement (Identifier.mk f)
            (List.map Identifier.mk (p :: q :: rest2)) body, p2) := by rw [hbody]; rfl

/-- Witness for the C2 amended theorem: it is applied at the zero-parameter
definition `def g(): x = 1` and at the two-parameter definition
`def g(a, b): x = 1` (token forms), producing `params = []` and
`params = [a, b]` respectively. -/
theorem def_params_declared_order_witness :
    parse_function_definition_statement (40 + 1)
      (Parser.mk (def_source_toks "g" []
        [Tok.Newline, Tok.Indent, Tok.Identifier "x", Tok.Equals, Tok.Integer 1,
         Tok.Newline, Tok.EOF]) 0) =
      some (Statement.FunctionDefinitionStatement (Identifier.mk "g") []
        [Statement.ExpressionStatement (Expression.AssignmentExpression (Identifier.mk "x")
          (Statement.ExpressionStatement (Expression.Literal (Lit.Int 1))))],
        Parser.mk (def_source_toks "g" []
          [Tok.Newline, Tok.Indent, Tok.Identifier "x", Tok.Equals, Tok.Integer 1,
           Tok.Newline, Tok.EOF]) 11) ∧
    parse_function_definition_statement (40 + 1)
      (Parser.mk (def_source_toks "g" ["a", "b"]
        [Tok.Newline, Tok.Indent, Tok.Identifier "x", Tok.Equals, Tok.Integer 1,
         Tok.Newline, Tok.EOF]) 0) =
      some (Statement.FunctionDefinitionStatement (Identifier.mk "g")
        [Identifier.mk "a", Identifier.mk "b"]
        [Statement.ExpressionStatement (Expression.AssignmentExpression (Identifier.mk "x")
          (Statement.ExpressionStatement (Expression.Literal (Lit.Int 1))))],
        Parser.mk (def_source_toks "g" ["a", "b"]
          [Tok.Newline, Tok.Indent, Tok.Identifier "x", Tok.Equals, Tok.Integer 1,
           Tok.Newline, Tok.EOF]) 14) :=
  ⟨def_params_declared_order 40 "g" []
      [Tok.Newline, Tok.Indent, Tok.Identifier "x", Tok.Equals, Tok.Integer 1,
       Tok.Newline, Tok.EOF]
      [Statement.ExpressionStatement (Expression.AssignmentExpression (Identifier.mk "x")
        (Statement.ExpressionStatement (Expression.Literal (Lit.Int 1))))]
      (Parser.mk (def_source_toks "g" []
        [Tok.Newline, Tok.Indent, Tok.Identifier "x", Tok.Equals, Tok.Integer 1,
         Tok.Newline, Tok.EOF]) 11)
      (Or.inl rfl) (by decide) rfl,
   def_params_declared_order 40 "g" ["a", "b"]
      [Tok.Newline, Tok.Indent, Tok.Identifier "x", Tok.Equals, Tok.Integer 1,
       Tok.Newline, Tok.EOF]
      [Statement.ExpressionStatement (Expression.AssignmentExpression (Identifier.mk "x")
        (Statement.ExpressionStatement (Expression.Literal (Lit.Int 1))))]
      (Parser.mk (def_source_toks "g" ["a", "b"]
        [Tok.Newline, Tok.Indent, Tok.Identifier "x", Tok.Equals, Tok.Integer 1,
         Tok.Newline, Tok.EOF]) 14)
      (Or.inr (by decide)) (by decide) rfl⟩

/-- C3 counterexample: `clean_tokens` does not preserve every non-collapsed,
non-spurious token: the token right after an `Indent` is dropped
(`Integer 1` disappears from `[Indent, Integer 1]`), and a `Dedent` that
would take the indent level below zero is kept when it does not follow a
`Newline` or `Dedent`. -/
theorem clean_tokens_not_preserving :
    clean_tokens [Tok.Indent, Tok.Integer 1] = [Tok.Indent] ∧
    clean_tokens [Tok.Identifier "x", Tok.Dedent] =
      [Tok.Identifier "x", Tok.Dedent] :=
  ⟨rfl, rfl⟩

/-- C8 counterexample: `"   a"` — a text whose every line has the same
indentation width (3) — still makes `tokenize` emit an `Indent` token,
because the indentation stack starts at width 0. -/
theorem tokenize_uniform_indent_emits_indent :
    tokenize "   a".toList = some [Tok.Indent, Tok.Identifier "a", Tok.EOF] ∧
    List.count Tok.Indent [Tok.Indent, Tok.Identifier "a", Tok.EOF] ≠ 0 :=
  ⟨rfl, by decide⟩

/-- C1 counterexample: `tokenize` is not total — on `"1.2.3"` the scanner
collects the digits-and-dots run `1.2.3`, whose `parse::<f64>().unwrap()`
panics, so tokenization aborts (and it aborts at every fuel, so this is a
genuine abort, not fuel exhaustion). -/
theorem tokenize_bad_float_aborts :
    tokenize "1.2.3".toList = none ∧
    ∀ fuel, tokLoop fuel "1.2.3".toList true [0] = none := by
  refine ⟨rfl, fun fuel => ?_⟩
  match fuel with
  | 0 => rfl
  | 1 => rfl
  | k + 2 => rfl

theorem popLevels_spec :
    ∀ (stack : List Nat) (lvl : Nat), stack.getLast? = some 0 →
    ∃ k st2, popLevels stack lvl = some (List.replicate k Tok.Dedent, st2) ∧
      st2 = stack.drop k ∧ st2.getLast? = some 0 ∧
      ((∃ top rest, stack = top :: rest ∧ top > lvl) → 0 < k) := by
  intro stack
  induction stack with
  | nil => intro lvl h; simp at h
  | cons top rest ih =>
    intro lvl hlast
    by_cases htop : top > lvl
    · match rest, hlast with
      | [], hlast =>
        simp at hlast
        omega
      | b :: t, hlast =>
        have hlast' : (b :: t).getLast? = some 0 := by
          simpa [List.getLast?_cons_cons] using hlast
        obtain ⟨k, st2, hpop, hdrop, hl0, _⟩ := ih lvl hlast'
        have step : popLevels (top :: b :: t) lvl =
            (match popLevels (b :: t) lvl with
             | none => none
             | some (ts, st) => some (Tok.Dedent :: ts, st)) := by
          conv_lhs => rw [popLevels]
          rw [if_pos htop]
        refine ⟨k + 1, st2, ?_, ?_, hl0, fun _ => Nat.succ_pos k⟩
        · rw [List.replicate_succ, step, hpop]
        · simpa using hdrop
    · refine ⟨0, top :: rest, ?_, rfl, hlast, ?_⟩
      · simp [popLevels, htop]
      · rintro ⟨top', rest', heq, hgt⟩
        cases heq
        omega

theorem handle_indentation_spec (cs : List Char) (stack : List Nat)
    (hchain : List.Chain' (· > ·) stack) (hlast : stack.getLast? = some 0) :
    ∃ itoks stack2,
      handle_indentation cs stack = some (itoks, stack2) ∧
      List.Chain' (· > ·) stack2 ∧ stack2.getLast? = some 0 ∧
      ((itoks = [] ∧ stack2 = stack) ∨
       (itoks = [Tok.Indent] ∧ stack2 = indentWidth cs :: stack) ∨
       (∃ k, 0 < k ∧ itoks = List.replicate k Tok.Dedent ∧ stack2 = stack.drop k)) := by
  match stack, hlast with
  | current :: rest, hlast =>
    by_cases hgt : indentWidth cs > current
    · refine ⟨[Tok.Indent], indentWidth cs :: current :: rest, ?_, ?_, ?_, ?_⟩
      · simp [handle_indentation, hgt]
      · exact hchain.cons hgt
      · simpa [List.getLast?_cons_cons] using hlast
      · exact Or.inr (Or.inl ⟨rfl, rfl⟩)
    · by_cases hlt : indentWidth cs < current
      · obtain ⟨k, st2, hpop, hdrop, hl0, hkpos⟩ :=
          popLevels_spec (current :: rest) (indentWidth cs) hlast
        refine ⟨List.replicate k Tok.Dedent, st2, ?_, ?_, hl0, ?_⟩
        · simp [handle_indentation, hgt, hlt, hpop]
        · exact hchain.sublist (hdrop ▸ List.drop_sublist k (current :: rest))
        · exact Or.inr (Or.inr ⟨k, hkpos ⟨current, rest, rfl, hlt⟩, rfl, hdrop⟩)
      · refine ⟨[], current :: rest, ?_, hchain, hlast, Or.inl ⟨rfl, rfl⟩⟩
        simp [handle_indentation, hgt, hlt]

/-- C7: the indentation stack is seeded `[0]` (which satisfies the invariant),
and every `handle_indentation` step — the only place `tokenize` touches the
stack — keeps it strictly increasing from bottom to top (head of the list =
top of the stack, so the chain relation is `>` toward the bottom, which ends
at 0) and emits exactly one `Indent` per push and exactly one `Dedent` per
popped level, and nothing otherwise. -/
theorem indent_stack_invariant :
    (List.Chain' (· > ·) [(0 : Nat)] ∧ ([(0 : Nat)] : List Nat).getLast? = some 0) ∧
    ∀ cs stack, List.Chain' (· > ·) stack → stack.getLast? = some 0 →
      ∃ itoks stack2,
        handle_indentation cs stack = some (itoks, stack2) ∧
        List.Chain' (· > ·) stack2 ∧ stack2.getLast? = some 0 ∧
        ((itoks = [] ∧ stack2 = stack) ∨
         (itoks = [Tok.Indent] ∧ stack2 = indentWidth cs :: stack) ∨
         (∃ k, 0 < k ∧ itoks = List.replicate k Tok.Dedent ∧ stack2 = stack.drop k)) :=
  ⟨⟨List.chain'_singleton 0, rfl⟩, fun cs stack hchain hlast =>
    handle_indentation_spec cs stack hchain hlast⟩

/-- C7 witness: the invariant theorem applied to the concrete line `"  x"` on
the freshly seeded stack `[0]` (an `Indent` push). -/
theorem indent_stack_invariant_witness :
    ∃ itoks stack2,
      handle_indentation "  x".toList [0] = some (itoks, stack2) ∧
      List.Chain' (· > ·) stack2 ∧ stack2.getLast? = some 0 ∧
      ((itoks = [] ∧ stack2 = [0]) ∨
       (itoks = [Tok.Indent] ∧ stack2 = indentWidth "  x".toList :: [0]) ∨
       (∃ k, 0 < k ∧ itoks = List.replicate k Tok.Dedent ∧ stack2 = [0].drop k)) :=
  indent_stack_invariant.2 "  x".toList [0] (List.chain'_singleton 0) rfl

theorem emit_eq_some (t : Tok) (o : Option (List Tok)) (ts : List Tok) :
    emit t o = some ts ↔ ∃ ts1, o = some ts1 ∧ ts = t :: ts1 := by
  cases o
  · simp [emit]
  · simp [emit]
    exact eq_comm

theorem popLevels_toks :
    ∀ (st : List Nat) (lvl : Nat) (ts : List Tok) (st2 : List Nat),
    popLevels st lvl = some (ts, st2) → ∀ t ∈ ts, t = Tok.Dedent := by
  intro st
  induction st with
  | nil => intro lvl ts st2 h; simp [popLevels] at h
  | cons top rest ih =>
    intro lvl ts st2 h
    by_cases htop : top > lvl
    · rw [show popLevels (top :: rest) lvl =
          (match popLevels rest lvl with
           | none => none
           | some (ts, st) => some (Tok.Dedent :: ts, st)) from by
        conv_lhs => rw [popLevels]
        rw [if_pos htop]] at h
      cases hpl : popLevels rest lvl with
      | none =>
        rw [hpl] at h
        exact absurd h (by simp)
      | some pr =>
        obtain ⟨ts1, st1⟩ := pr
        rw [hpl] at h
        have h2 : some (Tok.Dedent :: ts1, st1) = some (ts, st2) := h
        obtain ⟨rfl, rfl⟩ : Tok.Dedent :: ts1 = ts ∧ st1 = st2 := by
          simpa [Prod.ext_iff] using h2
        intro t hmem
        rcases List.mem_cons.mp hmem with rfl | hmem
        · rfl
        · exact ih lvl ts1 _ hpl t hmem
    · rw [show popLevels (top :: rest) lvl = some ([], top :: rest) from by
        conv_lhs => rw [popLevels]
        rw [if_neg htop]] at h
      cases h
      intro t hmem
      simp at hmem

theorem handle_indentation_toks {cs : List Char} {st : List Nat}
    {itoks : List Tok} {st2 : List Nat}
    (h : handle_indentation cs st = some (itoks, st2)) :
    ∀ t ∈ itoks, t = Tok.Indent ∨ t = Tok.Dedent := by
  unfold handle_indentation at h
  match st with
  | [] => simp at h
  | current :: rest =>
    simp only at h
    split at h
    · cases h
      intro t hmem
      simp at hmem
      exact Or.inl hmem
    · split at h
      · intro t hmem
        exact Or.inr (popLevels_toks _ _ _ _ h t hmem)
      · cases h
        intro t hmem
        simp at hmem

theorem keywordTok_ne_eof (s : String) : keywordTok s ≠ Tok.EOF := by
  unfold keywordTok
  split <;> simp

theorem numberTok_ne_eof (x : List Char) (t : Tok) :
    numberTok x = some t → t ≠ Tok.EOF := by
  intro h
  unfold numberTok at h
  split at h
  · split at h
    · cases h
      simp
    · exact absurd h (by simp)
  · split at h
    · cases h
      simp
    · exact absurd h (by simp)

theorem keywordTok_not_structural (s : String) :
    keywordTok s ≠ Tok.EOF ∧ keywordTok s ≠ Tok.Indent ∧ keywordTok s ≠ Tok.Dedent := by
  unfold keywordTok
  split <;> simp

theorem numberTok_not_structural (x : List Char) (t : Tok) (h : numberTok x = some t) :
    t ≠ Tok.EOF ∧ t ≠ Tok.Indent ∧ t ≠ Tok.Dedent := by
  unfold numberTok at h
  split at h
  · split at h
    · cases h
      simp
    · exact absurd h (by simp)
  · split at h
    · cases h
      simp
    · exact absurd h (by simp)

theorem scanString_suffix (quote : Char) (cs : List Char) :
    (scanString quote cs).2 <:+ cs := by
  induction cs with
  | nil => simp [scanString]
  | cons c cs ih =>
    by_cases h : c == quote
    · simp only [scanString, if_pos h]
      exact List.suffix_cons c cs
    · simp only [scanString, if_neg h]
      exact ih.trans (List.suffix_cons c cs)

theorem scanStep_spec {c : Char} {cs : List Char} {mt : Option Tok}
    {rest : List Char} {flag : Bool}
    (h : scanStep c cs = some (mt, rest, flag)) :
    rest.length ≤ cs.length ∧
    (∀ t, mt = some t → t ≠ Tok.EOF ∧ t ≠ Tok.Indent ∧ t ≠ Tok.Dedent) ∧
    rest <:+ c :: cs ∧
    (flag = true → rest = cs ∧ isNlChar c = true) := by
  unfold scanStep at h
  by_cases hC : isWsChar c = true
  · rw [if_pos hC] at h
    cases h
    exact ⟨length_dropWhile_le _ _, by simp,
           (List.dropWhile_suffix _).trans (List.suffix_cons c cs), by simp⟩
  rw [if_neg hC] at h
  clear hC
  by_cases hC : isNlChar c = true
  · rw [if_pos hC] at h
    cases h
    exact ⟨Nat.le_refl _, fun t ht => by cases ht; simp, List.suffix_cons c cs,
           fun _ => ⟨rfl, hC⟩⟩
  rw [if_neg hC] at h
  clear hC
  by_cases hC : (c == '(') = true
  · rw [if_pos hC] at h
    cases h
    exact ⟨Nat.le_refl _, fun t ht => by cases ht; simp, List.suffix_cons c cs, by simp⟩
  rw [if_neg hC] at h
  clear hC
  by_cases hC : (c == ')') = true
  · rw [if_pos hC] at h
    cases h
    exact ⟨Nat.le_refl _, fun t ht => by cases ht; simp, List.suffix_cons c cs, by simp⟩
  rw [if_neg hC] at h
  clear hC
  by_cases hC : (c == '{') = true
  · rw [if_pos hC] at h
    cases h
    exact ⟨Nat.le_refl _, fun t ht => by cases ht; simp, List.suffix_cons c cs, by simp⟩
  rw [if_neg hC] at h
  clear hC
  by_cases hC : (c == '}') = true
  · rw [if_pos hC] at h
    cases h
    exact ⟨Nat.le_refl _, fun t ht => by cases ht; simp, List.suffix_cons c cs, by simp⟩
  rw [if_neg hC] at h
  clear hC
  by_cases hC : (c == '[') = true
  · rw [if_pos hC] at h
    cases h
    exact ⟨Nat.le_refl _, fun t ht => by cases ht; simp, List.suffix_cons c cs, by simp⟩
  rw [if_neg hC] at h
  clear hC
  by_cases hC : (c == ']') = true
  · rw [if_pos hC] at h
    cases h
    exact ⟨Nat.le_refl _, fun t ht => by cases ht; simp, List.suffix_cons c cs, by simp⟩
  rw [if_neg hC] at h
  clear hC
  by_cases hC : (c == '+') = true
  · rw [if_pos hC] at h
    cases h
    exact ⟨Nat.le_refl _, fun t ht => by cases ht; simp, List.suffix_cons c cs, by simp⟩
  rw [if_neg hC] at h
  clear hC
  by_cases hC : (c == '-') = true
  · rw [if_pos hC] at h
    split at h
    · cases h
      exact ⟨by simp only [List.length_cons]; omega, fun t ht => by cases ht; simp,
             (List.suffix_cons _ _).trans (List.suffix_cons _ _), by simp⟩
    · cases h
      exact ⟨Nat.le_refl _, fun t ht => by cases ht; simp, List.suffix_cons c cs, by simp⟩
  rw [if_neg hC] at h
  clear hC
  by_cases hC : (c == '*') = true
  · rw [if_pos hC] at h
    split at h
    · cases h
      exact ⟨by simp only [List.length_cons]; omega, fun t ht => by cases ht; simp,
             (List.suffix_cons _ _).trans (List.suffix_cons _ _), by simp⟩
    · cases h
      exact ⟨Nat.le_refl _, fun t ht => by cases ht; simp, List.suffix_cons c cs, by simp⟩
  rw [if_neg hC] at h
  clear hC
  by_cases hC : (c == '/') = true
  · rw [if_pos hC] at h
    split at h
    · cases h
      exact ⟨by simp only [List.length_cons]; omega, fun t ht => by cases ht; simp,
             (List.suffix_cons _ _).trans (List.suffix_cons _ _), by simp⟩
    · cases h
      exact ⟨Nat.le_refl _, fun t ht => by cases ht; simp, List.suffix_cons c cs, by simp⟩
  rw [if_neg hC] at h
  clear hC
  by_cases hC : (c == '=') = true
  · rw [if_pos hC] at h
    split at h
    · cases h
      exact ⟨by simp only [List.length_cons]; omega, fun t ht => by cases ht; simp,
             (List.suffix_cons _ _).trans (List.suffix_cons _ _), by simp⟩
    · cases h
      exact ⟨Nat.le_refl _, fun t ht => by cases ht; simp, List.suffix_cons c cs, by simp⟩
  rw [if_neg hC] at h
  clear hC
  by_cases hC : (c == '!') = true
  · rw [if_pos hC] at h
    split at h
    · cases h
      exact ⟨by simp only [List.length_cons]; omega, fun t ht => by cases ht; simp,
             (List.suffix_cons _ _).trans (List.suffix_cons _ _), by simp⟩
    · cases h
      exact ⟨Nat.le_refl _, by simp, List.suffix_cons c cs, by simp⟩
  rw [if_neg hC] at h
  clear hC
  by_cases hC : (c == '<') = true
  · rw [if_pos hC] at h
    split at h
    · cases h
      exact ⟨by simp only [List.length_cons]; omega, fun t ht => by cases ht; simp,
             (List.suffix_cons _ _).trans (List.suffix_cons _ _), by simp⟩
    · cases h
      exact ⟨Nat.le_refl _, fun t ht => by cases ht; simp, List.suffix_cons c cs, by simp⟩
  rw [if_neg hC] at h
  clear hC
  by_cases hC : (c == '>') = true
  · rw [if_pos hC] at h
    split at h
    · cases h
      exact ⟨by simp only [List.length_cons]; omega, fun t ht => by cases ht; simp,
             (List.suffix_cons _ _).trans (List.suffix_cons _ _), by simp⟩
    · cases h
      exact ⟨Nat.le_refl _, fun t ht => by cases ht; simp, List.suffix_cons c cs, by simp⟩
  rw [if_neg hC] at h
  clear hC
  by_cases hC : (c == '\'' || c == '"') = true
  · rw [if_pos hC] at h
    cases h
    exact ⟨scanString_length_le c cs, fun t ht => by cases ht; simp,
           (scanString_suffix c cs).trans (List.suffix_cons c cs), by simp⟩
  rw [if_neg hC] at h
  clear hC
  by_cases hC : (c == '#') = true
  · rw [if_pos hC] at h
    cases h
    exact ⟨length_dropWhile_le _ _, fun t ht => by cases ht; simp,
           (List.dropWhile_suffix _).trans (List.suffix_cons c cs), by simp⟩
  rw [if_neg hC] at h
  clear hC
  by_cases hC : (c == ';') = true
  · rw [if_pos hC] at h
    cases h
    exact ⟨Nat.le_refl _, fun t ht => by cases ht; simp, List.suffix_cons c cs, by simp⟩
  rw [if_neg hC] at h
  clear hC
  by_cases hC : (c == ':') = true
  · rw [if_pos hC] at h
    cases h
    exact ⟨Nat.le_refl _, fun t ht => by cases ht; simp, List.suffix_cons c cs, by simp⟩
  rw [if_neg hC] at h
  clear hC
  by_cases hC : (c == ',') = true
  · rw [if_pos hC] at h
    cases h
    exact ⟨Nat.le_refl _, fun t ht => by cases ht; simp, List.suffix_cons c cs, by simp⟩
  rw [if_neg hC] at h
  clear hC
  by_cases hC : (c == '%') = true
  · rw [if_pos hC] at h
    cases h
    exact ⟨Nat.le_refl _, fun t ht => by cases ht; simp, List.suffix_cons c cs, by simp⟩
  rw [if_neg hC] at h
  clear hC
  by_cases hC : c.isDigit = true
  · rw [if_pos hC] at h
    split at h
    · exact absurd h (by simp)
    · rename_i t0 heq
      cases h
      exact ⟨length_dropWhile_le _ _,
             fun t ht => by cases ht; exact numberTok_not_structural _ _ heq,
             (List.dropWhile_suffix _).trans (List.suffix_cons c cs), by simp⟩
  rw [if_neg hC] at h
  clear hC
  by_cases hC : (c.isAlpha || c == '_') = true
  · rw [if_pos hC] at h
    cases h
    exact ⟨length_dropWhile_le _ _, fun t ht => by cases ht; exact keywordTok_not_structural _,
           (List.dropWhile_suffix _).trans (List.suffix_cons c cs), by simp⟩
  rw [if_neg hC] at h
  clear hC
  cases h
  exact ⟨Nat.le_refl _, by simp, List.suffix_cons c cs, by simp⟩

theorem scanStep_total (c : Char) (cs : List Char) (hc : ¬ c.isDigit = true) :
    (scanStep c cs).isSome = true := by
  unfold scanStep
  by_cases hC : isWsChar c = true
  · rw [if_pos hC]; rfl
  rw [if_neg hC]
  clear hC
  by_cases hC : isNlChar c = true
  · rw [if_pos hC]; rfl
  rw [if_neg hC]
  clear hC
  by_cases hC : (c == '(') = true
  · rw [if_pos hC]; rfl
  rw [if_neg hC]
  clear hC
  by_cases hC : (c == ')') = true
  · rw [if_pos hC]; rfl
  rw [if_neg hC]
  clear hC
  by_cases hC : (c == '{') = true
  · rw [if_pos hC]; rfl
  rw [if_neg hC]
  clear hC
  by_cases hC : (c == '}') = true
  · rw [if_pos hC]; rfl
  rw [if_neg hC]
  clear hC
  by_cases hC : (c == '[') = true
  · rw [if_pos hC]; rfl
  rw [if_neg hC]
  clear hC
  by_cases hC : (c == ']') = true
  · rw [if_pos hC]; rfl
  rw [if_neg hC]
  clear hC
  by_cases hC : (c == '+') = true
  · rw [if_pos hC]; rfl
  rw [if_neg hC]
  clear hC
  by_cases hC : (c == '-') = true
  · rw [if_pos hC]; split <;> rfl
  rw [if_neg hC]
  clear hC
  by_cases hC : (c == '*') = true
  · rw [if_pos hC]; split <;> rfl
  rw [if_neg hC]
  clear hC
  by_cases hC : (c == '/') = true
  · rw [if_pos hC]; split <;> rfl
  rw [if_neg hC]
  clear hC
  by_cases hC : (c == '=') = true
  · rw [if_pos hC]; split <;> rfl
  rw [if_neg hC]
  clear hC
  by_cases hC : (c == '!') = true
  · rw [if_pos hC]; split <;> rfl
  rw [if_neg hC]
  clear hC
  by_cases hC : (c == '<') = true
  · rw [if_pos hC]; split <;> rfl
  rw [if_neg hC]
  clear hC
  by_cases hC : (c == '>') = true
  · rw [if_pos hC]; split <;> rfl
  rw [if_neg hC]
  clear hC
  by_cases hC : (c == '\'' || c == '"') = true
  · rw [if_pos hC]; rfl
  rw [if_neg hC]
  clear hC
  by_cases hC : (c == '#') = true
  · rw [if_pos hC]; rfl
  rw [if_neg hC]
  clear hC
  by_cases hC : (c == ';') = true
  · rw [if_pos hC]; rfl
  rw [if_neg hC]
  clear hC
  by_cases hC : (c == ':') = true
  · rw [if_pos hC]; rfl
  rw [if_neg hC]
  clear hC
  by_cases hC : (c == ',') = true
  · rw [if_pos hC]; rfl
  rw [if_neg hC]
  clear hC
  by_cases hC : (c == '%') = true
  · rw [if_pos hC]; rfl
  rw [if_neg hC]
  clear hC
  rw [if_neg hc]
  by_cases hC : (c.isAlpha || c == '_') = true
  · rw [if_pos hC]; rfl
  rw [if_neg hC]
  rfl

theorem tokLoop_eof :
    ∀ (fuel : Nat) (cs : List Char) (b : Bool) (st : List Nat) (ts : List Tok),
    tokLoop fuel cs b st = some ts →
    ∃ ts0, ts = ts0 ++ [Tok.EOF] ∧ Tok.EOF ∉ ts0 := by
  intro fuel
  induction fuel with
  | zero => intro cs b st ts h; exact absurd h (by simp [tokLoop])
  | succ n ih =>
    intro cs b st ts h
    match cs, b with
    | [], b =>
      simp only [tokLoop] at h
      cases h
      exact ⟨[], rfl, by simp⟩
    | c :: cs, true =>
      simp only [tokLoop] at h
      split at h
      · exact absurd h (by simp)
      · rename_i itoks stack2 heq
        split at h
        · exact absurd h (by simp)
        · rename_i ts1 heq1
          obtain ⟨ts0, rfl, hnin⟩ := ih _ _ _ _ heq1
          cases h
          refine ⟨itoks ++ ts0, by simp, ?_⟩
          simp only [List.mem_append]
          rintro (hmem | hmem)
          · rcases handle_indentation_toks heq _ hmem with h1 | h1 <;> simp at h1
          · exact hnin hmem
    | c :: cs, false =>
      simp only [tokLoop] at h
      split at h
      · exact absurd h (by simp)
      · rename_i t rest flag heq
        obtain ⟨ts1, h1, rfl⟩ := (emit_eq_some _ _ _).mp h
        obtain ⟨ts0, rfl, hnin⟩ := ih _ _ _ _ h1
        refine ⟨t :: ts0, rfl, ?_⟩
        simp only [List.mem_cons, not_or]
        exact ⟨fun hbad => ((scanStep_spec heq).2.1 t rfl).1 hbad.symm, hnin⟩
      · rename_i rest flag heq
        exact ih _ _ _ _ h

theorem noDigits_sublist {l1 l2 : List Char} (h : List.Sublist l2 l1)
    (hd : noDigits l1 = true) : noDigits l2 = true := by
  simp only [noDigits, List.all_eq_true] at *
  exact fun c hc => hd c (h.subset hc)

theorem tokLoop_total :
    ∀ (fuel : Nat) (cs : List Char) (b : Bool) (st : List Nat),
    noDigits cs = true → List.Chain' (· > ·) st → st.getLast? = some 0 →
    2 * cs.length + (if b then 1 else 0) < fuel →
    (tokLoop fuel cs b st).isSome = true := by
  intro fuel
  induction fuel with
  | zero => intro cs b st _ _ _ hm; omega
  | succ n ih =>
    intro cs b st hnd hchain hlast hm
    match cs, b with
    | [], b => simp [tokLoop]
    | c :: cs, true =>
      obtain ⟨itoks, stack2, heq, hchain2, hlast2, _⟩ :=
        handle_indentation_spec (c :: cs) st hchain hlast
      have hnd2 : noDigits ((c :: cs).dropWhile isWsChar) = true :=
        noDigits_sublist (List.dropWhile_sublist _) hnd
      have hm1 : 2 * (c :: cs).length + 1 < n + 1 := hm
      have hm2 : 2 * ((c :: cs).dropWhile isWsChar).length + 0 < n := by
        have hd := length_dropWhile_le isWsChar (c :: cs)
        simp only [List.length_cons] at hm1 hd ⊢
        omega
      have hrec := ih _ false _ hnd2 hchain2 hlast2 hm2
      rw [Option.isSome_iff_exists] at hrec
      obtain ⟨ts1, hts1⟩ := hrec
      simp [tokLoop, heq, hts1]
    | c :: cs, false =>
      have hcd : ¬ c.isDigit = true := by
        simp only [noDigits, List.all_cons, Bool.and_eq_true, Bool.not_eq_true'] at hnd
        simp [hnd.1]
      have hs := scanStep_total c cs hcd
      rw [Option.isSome_iff_exists] at hs
      obtain ⟨⟨mt, rest, flag⟩, hseq⟩ := hs
      obtain ⟨hlen, htoks, hsuf, hflag⟩ := scanStep_spec hseq
      have hndr : noDigits rest = true := noDigits_sublist hsuf.sublist hnd
      have hm1 : 2 * (c :: cs).length + 0 < n + 1 := hm
      have hmr : 2 * rest.length + (if flag then 1 else 0) < n := by
        cases flag
        · have h0 : (if (false : Bool) = true then 1 else 0) = 0 := rfl
          rw [h0]
          simp only [List.length_cons] at hm1
          omega
        · obtain ⟨rfl, _⟩ := hflag rfl
          have h0 : (if (true : Bool) = true then 1 else 0) = 1 := rfl
          rw [h0]
          simp only [List.length_cons] at hm1
          omega
      have hrec := ih _ _ _ hndr hchain hlast hmr
      rw [Option.isSome_iff_exists] at hrec
      obtain ⟨ts1, hts1⟩ := hrec
      simp only [tokLoop]
      rw [hseq]
      cases mt with
      | some t => simp [emit, hts1]
      | none => simp [hts1]

/-- C1 (amended): `tokenize` can abort, but only while scanning a numeric
literal whose digits-and-dots text fails numeric parsing (see the
counterexample `"1.2.3"`); on every input containing no decimal digit it
returns normally, and whenever it returns, the returned token sequence ends
with exactly one trailing `EOF` (the last token is `EOF` and `EOF` occurs
exactly once). -/
theorem tokenize_trailing_eof_and_digit_free_total :
    (∀ cs ts, tokenize cs = some ts →
      ts.getLast? = some Tok.EOF ∧ ts.count Tok.EOF = 1) ∧
    (∀ cs, noDigits cs = true → (tokenize cs).isSome = true) := by
  constructor
  · intro cs ts h
    obtain ⟨ts0, rfl, hnin⟩ := tokLoop_eof _ _ _ _ _ h
    constructor
    · simp [List.getLast?_concat]
    · rw [List.count_append]
      simp [List.count_eq_zero.mpr hnin]
  · intro cs h
    exact tokLoop_total _ _ _ _ h (List.chain'_singleton 0) rfl
      (show 2 * cs.length + 1 < 2 * cs.length + 2 by omega)

/-- C1 witness: the trailing-`EOF` property instantiated on the tokenization
of `"x"`, and totality instantiated on the digit-free `"ab"`. -/
theorem tokenize_trailing_eof_witness :
    ([Tok.Identifier "x", Tok.EOF].getLast? = some Tok.EOF ∧
      [Tok.Identifier "x", Tok.EOF].count Tok.EOF = 1) ∧
    (tokenize "ab".toList).isSome = true :=
  ⟨tokenize_trailing_eof_and_digit_free_total.1 "x".toList
      [Tok.Identifier "x", Tok.EOF] rfl,
   tokenize_trailing_eof_and_digit_free_total.2 "ab".toList rfl⟩

theorem noLeadWs_cons {b : Bool} {c : Char} {cs : List Char}
    (h : noLeadWs b (c :: cs) = true) :
    noLeadWs (isNlChar c) cs = true ∧ (b = true → isWsChar c = false) := by
  simp only [noLeadWs] at h
  split at h
  · exact absurd h (by simp)
  · rename_i hguard
    refine ⟨h, fun hb => ?_⟩
    subst hb
    simpa using hguard

theorem noLeadWs_suffix :
    ∀ (l1 l2 : List Char) (b : Bool), l2 <:+ l1 → noLeadWs b l1 = true →
    noLeadWs false l2 = true := by
  intro l1
  induction l1 with
  | nil =>
    intro l2 b hs h
    rw [List.suffix_nil.mp hs]
    rfl
  | cons c cs ih =>
    intro l2 b hs h
    rcases List.suffix_cons_iff.mp hs with rfl | hs2
    · have h1 := (noLeadWs_cons h).1
      simp only [noLeadWs, Bool.false_and]
      simpa using h1
    · exact ih l2 (isNlChar c) hs2 (noLeadWs_cons h).1

theorem tokLoop_no_indent :
    ∀ (fuel : Nat) (cs : List Char) (b : Bool) (ts : List Tok),
    noLeadWs b cs = true → tokLoop fuel cs b [0] = some ts →
    ts.count Tok.Indent = 0 ∧ ts.count Tok.Dedent = 0 := by
  intro fuel
  induction fuel with
  | zero => intro cs b ts _ h; exact absurd h (by simp [tokLoop])
  | succ n ih =>
    intro cs b ts hlead h
    match cs, b with
    | [], b =>
      simp only [tokLoop] at h
      cases h
      simp
    | c :: cs, true =>
      have hws : isWsChar c = false := (noLeadWs_cons hlead).2 rfl
      have hw : indentWidth (c :: cs) = 0 := by
        simp only [isWsChar, Bool.or_eq_false_iff] at hws
        simp [indentWidth, hws.1, hws.2]
      have hhi : handle_indentation (c :: cs) [0] = some ([], [0]) := by
        simp [handle_indentation, hw]
      have hdw : (c :: cs).dropWhile isWsChar = c :: cs :=
        List.dropWhile_cons_of_neg (by simp [hws])
      simp only [tokLoop, hhi, hdw] at h
      have hlead2 : noLeadWs false (c :: cs) = true :=
        noLeadWs_suffix (c :: cs) (c :: cs) true List.suffix_rfl hlead
      split at h
      · exact absurd h (by simp)
      · rename_i ts1 heq1
        cases h
        simpa using ih _ _ _ hlead2 heq1
    | c :: cs, false =>
      simp only [tokLoop] at h
      split at h
      · exact absurd h (by simp)
      · rename_i t rest flag heq
        obtain ⟨ts1, h1, rfl⟩ := (emit_eq_some _ _ _).mp h
        obtain ⟨_, htoks, hsuf, hflag⟩ := scanStep_spec heq
        have hlead2 : noLeadWs flag rest = true := by
          cases flag
          · exact noLeadWs_suffix (c :: cs) rest false hsuf (noLeadWs_suffix _ _ _ List.suffix_rfl hlead)
          · obtain ⟨rfl, hnl⟩ := hflag rfl
            have := (noLeadWs_cons hlead).1
            rwa [hnl] at this
        obtain ⟨hi, hd⟩ := ih _ _ _ hlead2 h1
        obtain ⟨hne, hni, hnd2⟩ := scanStep_spec heq |>.2.1 t rfl
        constructor
        · simp [List.count_cons, hi, hni.symm]
        · simp [List.count_cons, hd, hnd2.symm]
      · rename_i rest flag heq
        obtain ⟨_, _, hsuf, hflag⟩ := scanStep_spec heq
        have hlead2 : noLeadWs flag rest = true := by
          cases flag
          · exact noLeadWs_suffix (c :: cs) rest false hsuf (noLeadWs_suffix _ _ _ List.suffix_rfl hlead)
          · obtain ⟨rfl, hnl⟩ := hflag rfl
            have := (noLeadWs_cons hlead).1
            rwa [hnl] at this
        exact ih _ _ _ hlead2 h

/-- C8 (amended): for every source text in which every line has indentation
width zero (no line begins with a space or a tab), `tokenize` emits zero
`Indent` and zero `Dedent` tokens whenever it returns.  (The claim's reading
— the same nonzero width on every line — is refuted by the counterexample
`"   a"`, since the indentation stack is seeded with width 0.) -/
theorem tokenize_flat_no_indent_dedent :
    ∀ cs ts, noLeadWs true cs = true → tokenize cs = some ts →
    ts.count Tok.Indent = 0 ∧ ts.count Tok.Dedent = 0 :=
  fun cs ts hlead h => tokLoop_no_indent _ cs true ts hlead h

/-- C8 witness: the amended theorem instantiated on `"a = 1\nb"`, whose lines
all have indentation width zero. -/
theorem tokenize_flat_no_indent_dedent_witness :
    [Tok.Identifier "a", Tok.Equals, Tok.Integer 1, Tok.Newline,
      Tok.Identifier "b", Tok.EOF].count Tok.Indent = 0 ∧
    [Tok.Identifier "a", Tok.Equals, Tok.Integer 1, Tok.Newline,
      Tok.Identifier "b", Tok.EOF].count Tok.Dedent = 0 :=
  tokenize_flat_no_indent_dedent "a = 1\nb".toList
    [Tok.Identifier "a", Tok.Equals, Tok.Integer 1, Tok.Newline,
      Tok.Identifier "b", Tok.EOF] rfl rfl

theorem collapseNewlinesAux_false_cons (t : Tok) (ts : List Tok) :
    collapseNewlinesAux false (t :: ts) =
      t :: collapseNewlinesAux (t == Tok.Newline) ts := by
  by_cases h : t = Tok.Newline
  · subst h
    rfl
  · have hb : (t == Tok.Newline) = false := by simp [h]
    simp [collapseNewlinesAux, hb]

theorem cleanLoop_collapse :
    ∀ (ts : List Tok) (prev : Option Tok) (lvl : Nat),
    noIndentDedent ts = true →
    prev ≠ some Tok.Indent → prev ≠ some Tok.Dedent →
    cleanLoop prev lvl ts = collapseNewlinesAux (prev == some Tok.Newline) ts := by
  intro ts
  induction ts with
  | nil => intro prev lvl _ _ _; rfl
  | cons t ts ih =>
    intro prev lvl hno hpi hpd
    simp only [noIndentDedent, List.all_cons, Bool.and_eq_true,
      Bool.not_eq_true'] at hno
    obtain ⟨⟨hti, htd⟩, hrest⟩ := hno
    have hrest' : noIndentDedent ts = true := by
      simp only [noIndentDedent]
      exact hrest
    have hti' : t ≠ Tok.Indent := by simpa using hti
    have htd' : t ≠ Tok.Dedent := by simpa using htd
    by_cases hpn : prev = some Tok.Newline
    · subst hpn
      by_cases htn : t = Tok.Newline
      · subst htn
        rw [show cleanLoop (some Tok.Newline) lvl (Tok.Newline :: ts) =
              cleanLoop (some Tok.Newline) lvl ts from rfl]
        rw [show collapseNewlinesAux (some Tok.Newline == some Tok.Newline)
              (Tok.Newline :: ts) = collapseNewlinesAux true ts from rfl]
        simpa using ih (some Tok.Newline) lvl hrest' (by simp) (by simp)
      · have h1 : (some Tok.Newline == some Tok.Newline && t == Tok.Newline) = false := by
          simp [htn]
        have h2 : (some Tok.Newline == some Tok.Newline && t == Tok.Dedent
            && lvl == 0) = false := by
          simp [htd']
        have hstep : cleanLoop (some Tok.Newline) lvl (t :: ts) =
            t :: cleanLoop (some t) lvl ts := by
          simp only [cleanLoop, h1, h2]
          rfl
        rw [hstep]
        rw [show (some Tok.Newline == some Tok.Newline) = true from rfl]
        rw [show collapseNewlinesAux true (t :: ts) =
              t :: collapseNewlinesAux false ts from by
          have hb : (t == Tok.Newline) = false := by simp [htn]
          simp [collapseNewlinesAux, hb]]
        have hbdg : (some t == some Tok.Newline) = false := by simp [htn]
        rw [ih (some t) lvl hrest' (by simp [hti']) (by simp [htd']), hbdg]
    · have h1 : (prev == some Tok.Newline) = false := by simp [hpn]
      have h4 : (prev == some Tok.Indent) = false := by simp [hpi]
      have h5 : (prev == some Tok.Dedent) = false := by simp [hpd]
      have hstep : cleanLoop prev lvl (t :: ts) = t :: cleanLoop (some t) lvl ts := by
        simp only [cleanLoop, h1, h4, h5, Bool.false_and, Bool.and_false]
        rfl
      rw [hstep, h1, collapseNewlinesAux_false_cons]
      have hbdg : (some t == some Tok.Newline) = (t == Tok.Newline) := by
        by_cases h : t = Tok.Newline <;> simp [h]
      rw [ih (some t) lvl hrest' (by simp [hti']) (by simp [htd']), hbdg]

/-- C3 (amended): on token lists containing no `Indent` and no `Dedent`
tokens, `clean_tokens` collapses each maximal run of consecutive `Newline`
tokens into a single `Newline` and preserves every other token, in order
(equality with the specification-side `collapseNewlines`).  In the presence
of `Indent`/`Dedent` the original claim fails: the token immediately
following an `Indent` (or following a `Dedent` while the tracked level is
positive) is dropped, and a below-zero `Dedent` is removed only right after a
`Newline` or another `Dedent` (see the counterexample). -/
theorem clean_tokens_collapses_newlines :
    ∀ ts, noIndentDedent ts = true → clean_tokens ts = collapseNewlines ts :=
  fun ts h => cleanLoop_collapse ts none 0 h (by simp) (by simp)

/-- C3 witness: the amended theorem instantiated on
`[Newline, Newline, Integer 1, Newline]`. -/
theorem clean_tokens_collapses_newlines_witness :
    clean_tokens [Tok.Newline, Tok.Newline, Tok.Integer 1, Tok.Newline] =
      collapseNewlines [Tok.Newline, Tok.Newline, Tok.Integer 1, Tok.Newline] :=
  clean_tokens_collapses_newlines
    [Tok.Newline, Tok.Newline, Tok.Integer 1, Tok.Newline] rfl

theorem Parser.advance_eq {p : Parser} {t : Tok} {q : Parser}
    (h : p.advance = some (t, q)) : p.get_current_token = some t := by
  unfold Parser.advance Parser.get_current_token at *
  split at h
  · rename_i t0 heq
    cases h
    exact heq
  · exact absurd h (by simp)

theorem option_bind_eq_some {α β : Type _} {x : Option α} {f : α → Option β} {b : β} :
    (x >>= f) = some b ↔ ∃ a, x = some a ∧ f a = some b :=
  Option.bind_eq_some

set_option maxHeartbeats 1000000 in
theorem parse_no_modulus_aux :
    ∀ fuel : Nat,
    (∀ p r, parse_loop fuel p = some r → stmts_no_modulus r.1 = true) ∧
    (∀ p r, parse_block_statement fuel p = some r → stmt_no_modulus r.1 = true) ∧
    (∀ p r, parse_statement fuel p = some r → stmt_no_modulus r.1 = true) ∧
    (∀ p r, parse_if_statement fuel p = some r → stmt_no_modulus r.1 = true) ∧
    (∀ p r, parse_block_statement_body fuel p = some r → stmts_no_modulus r.1 = true) ∧
    (∀ p r, parse_body_loop fuel p = some r → stmts_no_modulus r.1 = true) ∧
    (∀ p r, parse_function_definition_statement fuel p = some r →
      stmt_no_modulus r.1 = true) ∧
    (∀ p r, parse_function_arguments fuel p = some r → stmts_no_modulus r.1 = true) ∧
    (∀ p r, parse_args_loop fuel p = some r → stmts_no_modulus r.1 = true) ∧
    (∀ p r, parse_expression fuel p = some r → stmt_no_modulus r.1 = true) ∧
    (∀ p r, parse_logical_expression fuel p = some r → stmt_no_modulus r.1 = true) ∧
    (∀ left p r, stmt_no_modulus left = true → parse_logical_loop fuel left p = some r →
      stmt_no_modulus r.1 = true) ∧
    (∀ p r, parse_comparision_expression fuel p = some r → stmt_no_modulus r.1 = true) ∧
    (∀ left p r, stmt_no_modulus left = true →
      parse_comparision_loop fuel left p = some r → stmt_no_modulus r.1 = true) ∧
    (∀ p r, parse_additive_expression fuel p = some r → stmt_no_modulus r.1 = true) ∧
    (∀ left p r, stmt_no_modulus left = true →
      parse_additive_loop fuel left p = some r → stmt_no_modulus r.1 = true) ∧
    (∀ p r, parse_multiplicative_expression fuel p = some r →
      stmt_no_modulus r.1 = true) ∧
    (∀ left p r, stmt_no_modulus left = true →
      parse_multiplicative_loop fuel left p = some r → stmt_no_modulus r.1 = true) ∧
    (∀ p r, parse_primary fuel p = some r → stmt_no_modulus r.1 = true) := by
  intro fuel
  induction fuel with
  | zero =>
    exact ⟨fun p r h => by simp [parse_loop] at h,
      fun p r h => by simp [parse_block_statement] at h,
      fun p r h => by simp [parse_statement] at h,
      fun p r h => by simp [parse_if_statement] at h,
      fun p r h => by simp [parse_block_statement_body] at h,
      fun p r h => by simp [parse_body_loop] at h,
      fun p r h => by simp [parse_function_definition_statement] at h,
      fun p r h => by simp [parse_function_arguments] at h,
      fun p r h => by simp [parse_args_loop] at h,
      fun p r h => by simp [parse_expression] at h,
      fun p r h => by simp [parse_logical_expression] at h,
      fun left p r hl h => by simp [parse_logical_loop] at h,
      fun p r h => by simp [parse_comparision_expression] at h,
      fun left p r hl h => by simp [parse_comparision_loop] at h,
      fun p r h => by simp [parse_additive_expression] at h,
      fun left p r hl h => by simp [parse_additive_loop] at h,
      fun p r h => by simp [parse_multiplicative_expression] at h,
      fun left p r hl h => by simp [parse_multiplicative_loop] at h,
      fun p r h => by simp [parse_primary] at h⟩
  | succ n ih =>
    obtain ⟨ihPL, ihBS, ihST, ihIF, ihBB, ihBL, ihFD, ihFA, ihAL, ihEX, ihLO,
      ihLOL, ihCO, ihCOL, ihAD, ihADL, ihMU, ihMUL, ihPR⟩ := ih
    refine ⟨?_, ?_, ?_, ?_, ?_, ?_, ?_, ?_, ?_, ?_, ?_, ?_, ?_, ?_, ?_, ?_, ?_, ?_, ?_⟩
    · intro p r h
      simp only [parse_loop] at h
      split at h
      · simp only [option_bind_eq_some] at h
        obtain ⟨⟨s, p1⟩, h1, h⟩ := h
        obtain ⟨⟨rest, p2⟩, h2, h⟩ := h
        cases h
        simp only [stmts_no_modulus, Bool.and_eq_true]
        exact ⟨ihBS _ _ h1, ihPL _ _ h2⟩
      · cases h
        rfl
    · intro p r h
      simp only [parse_block_statement, option_bind_eq_some] at h
      obtain ⟨cur, hcur, h⟩ := h
      split at h
      · exact ihIF _ _ h
      · split at h
        · exact ihFD _ _ h
        · exact ihST _ _ h
    · intro p r h
      simp only [parse_statement] at h
      exact ihEX _ _ h
    · intro p r h
      simp only [parse_if_statement, option_bind_eq_some] at h
      obtain ⟨⟨t1, p1⟩, h1, h⟩ := h
      obtain ⟨⟨t2, p2⟩, h2, h⟩ := h
      obtain ⟨⟨test, p3⟩, h3, h⟩ := h
      obtain ⟨p4, h4, h⟩ := h
      obtain ⟨p5, h5, h⟩ := h
      obtain ⟨⟨body, p6⟩, h6, h⟩ := h
      cases h
      simp only [stmt_no_modulus, Bool.and_eq_true]
      exact ⟨ihEX _ _ h3, ihBB _ _ h6⟩
    · intro p r h
      simp only [parse_block_statement_body, option_bind_eq_some] at h
      obtain ⟨⟨t1, p1⟩, h1, h⟩ := h
      obtain ⟨⟨t2, p2⟩, h2, h⟩ := h
      exact ihBL _ _ h
    · intro p r h
      simp only [parse_body_loop, option_bind_eq_some] at h
      obtain ⟨cur, hcur, h⟩ := h
      split at h
      · cases h
        rfl
      · simp only [option_bind_eq_some] at h
        obtain ⟨nxt, hnxt, h⟩ := h
        split at h
        · simp only [option_bind_eq_some] at h
          obtain ⟨⟨t1, p1⟩, h1, h⟩ := h
          obtain ⟨p2, h2, h⟩ := h
          cases h
          rfl
        · simp only [option_bind_eq_some] at h
          obtain ⟨⟨t1, p1⟩, h1, h⟩ := h
          exact ihBL _ _ h
      · simp only [option_bind_eq_some] at h
        obtain ⟨⟨s, p1⟩, h1, h⟩ := h
        obtain ⟨⟨rest, p2⟩, h2, h⟩ := h
        cases h
        simp only [stmts_no_modulus, Bool.and_eq_true]
        exact ⟨ihBS _ _ h1, ihBL _ _ h2⟩
    · intro p r h
      simp only [parse_function_definition_statement, option_bind_eq_some] at h
      obtain ⟨⟨t1, p1⟩, h1, h⟩ := h
      obtain ⟨nameTok, hname, h⟩ := h
      obtain ⟨fname, hfn, h⟩ := h
      obtain ⟨⟨t2, p2⟩, h2, h⟩ := h
      obtain ⟨⟨t3, p3⟩, h3, h⟩ := h
      obtain ⟨nxt, hnxt, h⟩ := h
      split at h
      · simp only [option_bind_eq_some] at h
        obtain ⟨⟨t4, p4⟩, h4, h⟩ := h
        obtain ⟨⟨t5, p5⟩, h5, h⟩ := h
        obtain ⟨⟨body, p6⟩, h6, h⟩ := h
        cases h
        simp only [stmt_no_modulus]
        exact ihBB _ _ h6
      · simp only [option_bind_eq_some] at h
        obtain ⟨⟨params, p4⟩, h4, h⟩ := h
        obtain ⟨⟨t5, p5⟩, h5, h⟩ := h
        obtain ⟨⟨body, p6⟩, h6, h⟩ := h
        cases h
        simp only [stmt_no_modulus]
        exact ihBB _ _ h6
    · intro p r h
      simp only [parse_function_arguments, option_bind_eq_some] at h
      obtain ⟨cur, hcur, h⟩ := h
      split at h
      · simp only [option_bind_eq_some] at h
        obtain ⟨⟨t1, p1⟩, h1, h⟩ := h
        cases h
        rfl
      · exact ihAL _ _ h
    · intro p r h
      simp only [parse_args_loop, option_bind_eq_some] at h
      obtain ⟨⟨argument, p1⟩, h1, h⟩ := h
      obtain ⟨cur, hcur, h⟩ := h
      obtain ⟨p2, hp2, h⟩ := h
      obtain ⟨cur2, hcur2, h⟩ := h
      split at h
      · simp only [option_bind_eq_some] at h
        obtain ⟨⟨t3, p3⟩, h3, h⟩ := h
        cases h
        simp only [stmts_no_modulus, Bool.and_eq_true]
        exact ⟨ihEX _ _ h1, trivial⟩
      · simp only [option_bind_eq_some] at h
        obtain ⟨⟨rest, p4⟩, h4, h⟩ := h
        cases h
        simp only [stmts_no_modulus, Bool.and_eq_true]
        exact ⟨ihEX _ _ h1, ihAL _ _ h4⟩
    · intro p r h
      simp only [parse_expression] at h
      exact ihLO _ _ h
    · intro p r h
      simp only [parse_logical_expression, option_bind_eq_some] at h
      obtain ⟨⟨left, p1⟩, h1, h⟩ := h
      exact ihLOL left _ _ (ihCO _ _ h1) h
    · intro left p r hleft h
      simp only [parse_logical_loop, option_bind_eq_some] at h
      obtain ⟨cur, hcur, h⟩ := h
      split at h
      · simp only [option_bind_eq_some] at h
        obtain ⟨⟨opTok, p1⟩, h1, h⟩ := h
        obtain ⟨op, hop, h⟩ := h
        obtain ⟨⟨right, p2⟩, h2, h⟩ := h
        have hopnm : (op == Operator.Modulus) = false := by
          split at hop
          case _ => cases hop; rfl
          case _ => cases hop; rfl
          case _ => cases hop; rfl
          case _ => cases hop; rfl
          case _ => exact absurd hop (by simp)
        refine ihLOL _ _ _ ?_ h
        simp only [stmt_no_modulus, expr_no_modulus, Bool.and_eq_true]
        exact ⟨⟨hleft, by simp [hopnm]⟩, ihCO _ _ h2⟩
      · cases h
        exact hleft
    · intro p r h
      simp only [parse_comparision_expression, option_bind_eq_some] at h
      obtain ⟨⟨left, p1⟩, h1, h⟩ := h
      exact ihCOL left _ _ (ihAD _ _ h1) h
    · intro left p r hleft h
      simp only [parse_comparision_loop, option_bind_eq_some] at h
      obtain ⟨cur, hcur, h⟩ := h
      split at h
      · simp only [option_bind_eq_some] at h
        obtain ⟨⟨opTok, p1⟩, h1, h⟩ := h
        obtain ⟨op, hop, h⟩ := h
        obtain ⟨⟨right, p2⟩, h2, h⟩ := h
        have hopnm : (op == Operator.Modulus) = false := by
          split at hop
          case _ => cases hop; rfl
          case _ => cases hop; rfl
          case _ => cases hop; rfl
          case _ => cases hop; rfl
          case _ => exact absurd hop (by simp)
        refine ihCOL _ _ _ ?_ h
        simp only [stmt_no_modulus, expr_no_modulus, Bool.and_eq_true]
        exact ⟨⟨hleft, by simp [hopnm]⟩, ihAD _ _ h2⟩
      · cases h
        exact hleft
    · intro p r h
      simp only [parse_additive_expression, option_bind_eq_some] at h
      obtain ⟨⟨left, p1⟩, h1, h⟩ := h
      exact ihADL left _ _ (ihMU _ _ h1) h
    · intro left p r hleft h
      simp only [parse_additive_loop, option_bind_eq_some] at h
      obtain ⟨cur, hcur, h⟩ := h
      split at h
      · simp only [option_bind_eq_some] at h
        obtain ⟨⟨opTok, p1⟩, h1, h⟩ := h
        obtain ⟨op, hop, h⟩ := h
        obtain ⟨⟨right, p2⟩, h2, h⟩ := h
        have hopnm : (op == Operator.Modulus) = false := by
          split at hop
          case _ => cases hop; rfl
          case _ => cases hop; rfl
          case _ => exact absurd hop (by simp)
        refine ihADL _ _ _ ?_ h
        simp only [stmt_no_modulus, expr_no_modulus, Bool.and_eq_true]
        exact ⟨⟨hleft, by simp [hopnm]⟩, ihMU _ _ h2⟩
      · cases h
        exact hleft
    · intro p r h
      simp only [parse_multiplicative_expression, option_bind_eq_some] at h
      obtain ⟨⟨left, p1⟩, h1, h⟩ := h
      exact ihMUL left _ _ (ihPR _ _ h1) h
    · intro left p r hleft h
      simp only [parse_multiplicative_loop, option_bind_eq_some] at h
      obtain ⟨cur, hcur, h⟩ := h
      split at h
      · rename_i hguard
        simp only [option_bind_eq_some] at h
        obtain ⟨⟨opTok, p1⟩, h1, h⟩ := h
        obtain ⟨op, hop, h⟩ := h
        obtain ⟨⟨right, p2⟩, h2, h⟩ := h
        have h0 := Parser.advance_eq h1
        rw [hcur] at h0
        injection h0 with h0
        subst h0
        have hopnm : (op == Operator.Modulus) = false := by
          rcases hguard with rfl | rfl | rfl
          · cases hop; rfl
          · cases hop; rfl
          · cases hop; rfl
        refine ihMUL _ _ _ ?_ h
        simp only [stmt_no_modulus, expr_no_modulus, Bool.and_eq_true]
        exact ⟨⟨hleft, by simp [hopnm]⟩, ihPR _ _ h2⟩
      · cases h
        exact hleft
    · intro p r h
      simp only [parse_primary, option_bind_eq_some] at h
      obtain ⟨⟨current, p1⟩, h1, h⟩ := h
      split at h
      · simp only [option_bind_eq_some] at h
        obtain ⟨nxt, hnxt, h⟩ := h
        split at h
        · simp only [option_bind_eq_some] at h
          obtain ⟨⟨t2, p2⟩, h2, h⟩ := h
          obtain ⟨⟨args, p3⟩, h3, h⟩ := h
          cases h
          simp only [stmt_no_modulus, expr_no_modulus]
          exact ihFA _ _ h3
        · split at h
          · simp only [option_bind_eq_some] at h
            obtain ⟨⟨t2, p2⟩, h2, h⟩ := h
            obtain ⟨⟨value, p3⟩, h3, h⟩ := h
            cases h
            simp only [stmt_no_modulus, expr_no_modulus]
            exact ihEX _ _ h3
          · cases h
            rfl
      · cases h
        rfl
      · cases h
        rfl
      · cases h
        rfl
      · simp only [option_bind_eq_some] at h
        obtain ⟨⟨value, p2⟩, h2, h⟩ := h
        obtain ⟨p3, h3, h⟩ := h
        cases h
        exact ihEX _ (value, p2) h2
      · exact ihBS _ _ h
      · exact ihBS _ _ h
      · exact absurd h (by simp)

set_option maxHeartbeats 1000000 in
/-- C9: the lexer turns `%` into a `Percent` token and the `Operator` enum has
`Modulus`, but no operator loop of the parser ever consumes `Percent`: parsing
`"a % b"` fails fatally for every fuel (the `Percent` reaches `parse_primary`
and hits the `Undefined Symbol` panic), and no `Program` ever returned by
`Parser.parse` contains a `BinaryExpression` with the `Modulus` operator. -/
theorem percent_never_consumed_no_modulus :
    tokenize "%".toList = some [Tok.Percent, Tok.EOF] ∧
    (∀ fuel, parse_source "a % b" fuel = none) ∧
    (∀ fuel p prog, Parser.parse fuel p = some prog →
      prog_no_modulus prog = true) := by
  refine ⟨rfl, ?_, ?_⟩
  · have ht : tokenize "a % b".toList = some
        [Tok.Identifier "a", Tok.Percent, Tok.Identifier "b", Tok.EOF] := rfl
    have hp : ∀ fuel, Parser.parse fuel (Parser.mk
        [Tok.Identifier "a", Tok.Percent, Tok.Identifier "b", Tok.EOF] 0) = none := by
      intro fuel
      rcases Nat.lt_or_ge fuel 30 with h | h
      · interval_cases fuel <;> rfl
      · obtain ⟨k, rfl⟩ := Nat.exists_eq_add_of_le h
        have hk : Parser.parse (k + 30) (Parser.mk
            [Tok.Identifier "a", Tok.Percent, Tok.Identifier "b", Tok.EOF] 0) =
            none := rfl
        simpa [Nat.add_comm] using hk
    intro fuel
    unfold parse_source
    rw [ht]
    exact hp fuel
  · intro fuel p prog h
    unfold Parser.parse at h
    simp only [Option.map_eq_some'] at h
    obtain ⟨⟨body, p2⟩, hb, rfl⟩ := h
    exact (parse_no_modulus_aux fuel).1 _ _ hb

set_option maxHeartbeats 1000000 in
/-- C9 witness: the no-`Modulus` property instantiated on the program parsed
from the tokens of `"1 + 2 * 3"` with fuel 40. -/
theorem percent_never_consumed_no_modulus_witness :
    prog_no_modulus (Program.mk
      [Statement.ExpressionStatement (Expression.BinaryExpression
        (Statement.ExpressionStatement (Expression.Literal (Lit.Int 1)))
        Operator.Add
        (Statement.ExpressionStatement (Expression.BinaryExpression
          (Statement.ExpressionStatement (Expression.Literal (Lit.Int 2)))
          Operator.Multiply
          (Statement.ExpressionStatement (Expression.Literal (Lit.Int 3))))))]) = true :=
  percent_never_consumed_no_modulus.2.2 40 (Parser.mk
    [Tok.Integer 1, Tok.Plus, Tok.Integer 2, Tok.Star, Tok.Integer 3, Tok.EOF] 0)
    _ rfl
